import Mathlib

/-!
# antisopsephy: isopsephy calculator and LGPN name cache

A shallow embedding of `internal/isopsephy/isopsephy.go`, `internal/lgpn/cache.go` and
`internal/lgpn/lgpn.go`, followed by the properties proved about them.

Go strings are byte sequences; a byte is a natural number below 256 and a string is a
`List Nat`.  No definition below relies on the bound.
-/

set_option maxRecDepth 100000

/-!
## Go runtime: ranging over a string

`for _, r := range word` decodes the bytes of the string as UTF-8; an invalid encoding yields
the rune `0xFFFD` and advances by one byte.  This is `decoderune` of `runtime/utf8.go`.
-/

namespace Go

/-- Code point reported for an invalid encoding (`runeError` in `runtime/utf8.go`). -/
def runeError : Nat := 0xFFFD
/-- Bytes below `runeSelf` are single-byte runes. -/
def runeSelf : Nat := 0x80
def maxRune : Nat := 0x10FFFF
def surrogateMin : Nat := 0xD800
def surrogateMax : Nat := 0xDFFF
def t2 : Nat := 0xC0
def t3 : Nat := 0xE0
def t4 : Nat := 0xF0
def t5 : Nat := 0xF8
def maskx : Nat := 0x3F
def mask2 : Nat := 0x1F
def mask3 : Nat := 0x0F
def mask4 : Nat := 0x07
def rune1Max : Nat := 0x7F
def rune2Max : Nat := 0x7FF
def rune3Max : Nat := 0xFFFF
def locb : Nat := 0x80
def hicb : Nat := 0xBF

/-- Continuation-byte test `locb <= b && b <= hicb`. -/
def isCont (b : Nat) : Bool := decide (locb ≤ b) && decide (b ≤ hicb)

/-- The runtime function `decoderune(s, k)` applied to the suffix `s = s[k:]`: the decoded rune
and the number of bytes it occupies.  Every failure yields `(runeError, 1)`. -/
def decoderune (s : List Nat) : Nat × Nat :=
  let s0 := s.getD 0 0
  let s1 := s.getD 1 0
  let s2 := s.getD 2 0
  let s3 := s.getD 3 0
  if s.length = 0 then (runeError, 1)
  else if t2 ≤ s0 ∧ s0 < t3 then
    if 1 < s.length ∧ isCont s1 then
      let r := ((s0 &&& mask2) <<< 6) ||| (s1 &&& maskx)
      if rune1Max < r then (r, 2) else (runeError, 1)
    else (runeError, 1)
  else if t3 ≤ s0 ∧ s0 < t4 then
    if 2 < s.length ∧ isCont s1 ∧ isCont s2 then
      let r := ((s0 &&& mask3) <<< 12) ||| ((s1 &&& maskx) <<< 6) ||| (s2 &&& maskx)
      if rune2Max < r ∧ ¬ (surrogateMin ≤ r ∧ r ≤ surrogateMax) then (r, 3) else (runeError, 1)
    else (runeError, 1)
  else if t4 ≤ s0 ∧ s0 < t5 then
    if 3 < s.length ∧ isCont s1 ∧ isCont s2 ∧ isCont s3 then
      let r := ((s0 &&& mask4) <<< 18) ||| ((s1 &&& maskx) <<< 12) ||| ((s2 &&& maskx) <<< 6)
        ||| (s3 &&& maskx)
      if rune3Max < r ∧ r ≤ maxRune then (r, 4) else (runeError, 1)
    else (runeError, 1)
  else (runeError, 1)

/-- One step of `for _, r := range s` on the non-empty remainder `s`: a byte below `runeSelf`
is its own rune, anything else goes through `decoderune`. -/
def nextRune (s : List Nat) : Nat × Nat :=
  if s.getD 0 0 < runeSelf then (s.getD 0 0, 1) else decoderune s

/-- The runes produced by `for _, r := range s`, with an iteration budget. -/
def rangeLoop : Nat → List Nat → List Nat
  | 0, _ => []
  | _ + 1, [] => []
  | fuel + 1, b :: bs =>
    (nextRune (b :: bs)).1 :: rangeLoop fuel ((b :: bs).drop (nextRune (b :: bs)).2)

/-- The runes produced by `for _, r := range s`.  Every iteration consumes at least one byte, so
`s.length` iterations are enough. -/
def rangeRunes (s : List Nat) : List Nat := rangeLoop s.length s

/-- UTF-8 validity in the sense of `unicode/utf8.ValidString`: no position of the string decodes
to the width-one error rune. -/
def validLoop : Nat → List Nat → Bool
  | 0, _ => true
  | _ + 1, [] => true
  | fuel + 1, b :: bs =>
    if (nextRune (b :: bs)).1 = runeError ∧ (nextRune (b :: bs)).2 = 1 then false
    else validLoop fuel ((b :: bs).drop (nextRune (b :: bs)).2)

def ValidString (s : List Nat) : Bool := validLoop s.length s

/-- UTF-8 encoding of one code point (used to write string literals as bytes). -/
def encodeRune (r : Nat) : List Nat :=
  if r ≤ rune1Max then [r]
  else if r ≤ rune2Max then [t2 ||| (r >>> 6), locb ||| (r &&& maskx)]
  else if r ≤ rune3Max then
    [t3 ||| (r >>> 12), locb ||| ((r >>> 6) &&& maskx), locb ||| (r &&& maskx)]
  else
    [t4 ||| (r >>> 18), locb ||| ((r >>> 12) &&& maskx), locb ||| ((r >>> 6) &&& maskx),
      locb ||| (r &&& maskx)]

/-- The bytes of a string literal. -/
def bytes (s : String) : List Nat := s.data.flatMap (fun c => encodeRune c.toNat)

end Go

/-! ## internal/isopsephy -/

namespace isopsephy

/-- The error value built by `fmt.Errorf("bad character %s (%x)", string(r), r)`. -/
inductive CalcError where
  | badCharacter (r : Nat)
  deriving DecidableEq, Repr

/-- The `switch r` of `Calculate`: the amount added to `total` for a rune of one of the cases,
`none` for the `default` branch. -/
def letterValue (r : Nat) : Option Int :=
  if r ∈ [0x20, 0x1FCE, 0x1FDE, 0x1FFE, 0x1FCF, 0x1FBF, 0x1FDF,
      0x301, 0x302, 0x304, 0x313, 0x314, 0x342] then some 0
  else if r ∈ [0x391, 0x1F08, 0x3B1, 0x3AC, 0x1FB6, 0x1F01] then some 1
  else if r ∈ [0x392, 0x3B2] then some 2
  else if r ∈ [0x393, 0x3B3] then some 3
  else if r ∈ [0x394, 0x3B4] then some 4
  else if r ∈ [0x395, 0x1F18, 0x3B5, 0x3AD, 0x1F11] then some 5
  else if r ∈ [0x3DC, 0x3DD, 0x3DA, 0x3DB, 0x3C2] then some 6
  else if r ∈ [0x396, 0x3B6] then some 7
  else if r ∈ [0x397, 0x1F28, 0x3B7, 0x3AE, 0x1FC6, 0x1F21] then some 8
  else if r ∈ [0x398, 0x3B8] then some 9
  else if r ∈ [0x399, 0x1F38, 0x3B9, 0x3AF, 0x1FD6, 0x1F30, 0x390, 0x3CA, 0x1F34, 0x1F31,
      0x1F35] then some 10
  else if r ∈ [0x39A, 0x3BA] then some 20
  else if r ∈ [0x39B, 0x3BB] then some 30
  else if r ∈ [0x39C, 0x3BC] then some 40
  else if r ∈ [0x39D, 0x376, 0x377, 0x3BD] then some 50
  else if r ∈ [0x39E, 0x3BE] then some 60
  else if r ∈ [0x39F, 0x1F48, 0x3BF, 0x3CC, 0x1F40, 0x1F41, 0x1F44] then some 70
  else if r ∈ [0x3A0, 0x3C0] then some 80
  else if r ∈ [0x3D8, 0x3D9] then some 90
  else if r ∈ [0x3A1, 0x1FEC, 0x3C1] then some 100
  else if r ∈ [0x3A3, 0x3C3] then some 200
  else if r ∈ [0x3A4, 0x3C4] then some 300
  else if r ∈ [0x3A5, 0x3C5, 0x3CD, 0x1F50, 0x1FE6, 0x1F54, 0x3CB, 0x1F51, 0x3B0, 0x1F55] then
    some 400
  else if r ∈ [0x3A6, 0x3C6] then some 500
  else if r ∈ [0x3A7, 0x3C7] then some 600
  else if r ∈ [0x3A8, 0x3C8] then some 700
  else if r ∈ [0x3A9, 0x1F68, 0x3C9, 0x3CE, 0x1FF6, 0x1F61] then some 800
  else if r ∈ [0x3E0, 0x3E1] then some 900
  else none

/-- The body of `Calculate` after `total := 0`: the loop over the runes of the word, then
`return total, nil`.  The `default` branch returns `0` and the error at once.

`total` is a Go `int`.  Each rune adds at most 900 and occupies at least one byte, so the sum is
at most `900 * len(word)` (theorem `Calculate_bounds`), far from the 64-bit limit for any string
that fits in memory; the additions are therefore exact. -/
def calculateLoop : List Nat → Int → Int × Option CalcError
  | [], total => (total, none)
  | r :: rs, total =>
    match letterValue r with
    | some v => calculateLoop rs (total + v)
    | none => (0, some (CalcError.badCharacter r))

/-- Go `Calculate(word)`: the returned number and the returned error (`none` is `nil`). -/
def Calculate (word : List Nat) : Int × Option CalcError :=
  calculateLoop (Go.rangeRunes word) 0

/-- Numeric value the table assigns to a recognised rune (0 outside the table). -/
def tableValue (r : Nat) : Int := (letterValue r).getD 0

end isopsephy

/-!
## encoding/json: the scanner (`scanner.go`)

`downloadNames` reads the response through a `json.Decoder` of the Go standard library, which is
not part of the repository.  The parts it goes through are transcribed here: the state machine
of the scanner, and below `readValue`, `peek`, `More`, `Token` and `Decode` of the decoder.
-/

namespace json

/-- Entries of `scanner.parseState`. -/
inductive ParseState where
  | parseObjectKey
  | parseObjectValue
  | parseArrayValue
  deriving DecidableEq, Repr

/-- The values the field `scanner.step` takes (one per state function). -/
inductive Step where
  | stateBeginValueOrEmpty | stateBeginValue | stateBeginStringOrEmpty | stateBeginString
  | stateEndValue | stateEndTop
  | stateInString | stateInStringEsc | stateInStringEscU | stateInStringEscU1
  | stateInStringEscU12 | stateInStringEscU123
  | stateNeg | state1 | state0 | stateDot | stateDot0 | stateE | stateESign | stateE0
  | stateT | stateTr | stateTru | stateF | stateFa | stateFal | stateFals
  | stateN | stateNu | stateNul
  | stateError
  deriving DecidableEq, Repr

/-- Return codes of the state functions. -/
inductive ScanCode where
  | scanContinue | scanBeginLiteral | scanBeginObject | scanObjectKey | scanObjectValue
  | scanEndObject | scanBeginArray | scanArrayValue | scanEndArray | scanSkipSpace
  | scanEnd | scanError
  deriving DecidableEq, Repr

/-- A `*SyntaxError` built by `scanner.error(c, context)`; its message is
`"invalid character " + quoteChar(c) + " " + context`. -/
structure SyntaxError where
  c : Nat
  context : String
  deriving DecidableEq, Repr

structure scanner where
  step : Step
  endTop : Bool
  /-- The parse stack, innermost entry first. -/
  parseState : List ParseState
  err : Option SyntaxError
  deriving DecidableEq, Repr

def maxNestingDepth : Nat := 10000

/-- The scanner after `reset()`. -/
def scanner.reset : scanner := ⟨Step.stateBeginValue, false, [], none⟩

def scanner.error (s : scanner) (c : Nat) (context : String) : scanner × ScanCode :=
  ({ s with step := Step.stateError, err := some ⟨c, context⟩ }, ScanCode.scanError)

def scanner.pushParseState (s : scanner) (c : Nat) (newParseState : ParseState)
    (successState : ScanCode) : scanner × ScanCode :=
  let s1 := { s with parseState := newParseState :: s.parseState }
  if s1.parseState.length ≤ maxNestingDepth then (s1, successState)
  else s1.error c "exceeded max depth"

def scanner.popParseState (s : scanner) : scanner :=
  let rest := s.parseState.tail
  if rest.length = 0 then { s with parseState := rest, step := Step.stateEndTop, endTop := true }
  else { s with parseState := rest, step := Step.stateEndValue }

def isSpace (c : Nat) : Bool := c = 0x20 || c = 0x09 || c = 0x0D || c = 0x0A

def isDigit (c : Nat) : Bool := decide (0x30 ≤ c) && decide (c ≤ 0x39)

def isDigit19 (c : Nat) : Bool := decide (0x31 ≤ c) && decide (c ≤ 0x39)

def isHex (c : Nat) : Bool :=
  isDigit c || (decide (0x61 ≤ c) && decide (c ≤ 0x66)) || (decide (0x41 ≤ c) && decide (c ≤ 0x46))

def stateEndTop (s : scanner) (c : Nat) : scanner × ScanCode :=
  if !isSpace c then ((s.error c "after top-level value").1, ScanCode.scanEnd)
  else (s, ScanCode.scanEnd)

def stateEndValue (s : scanner) (c : Nat) : scanner × ScanCode :=
  match s.parseState with
  | [] => stateEndTop { s with step := Step.stateEndTop, endTop := true } c
  | ps :: rest =>
    if isSpace c then ({ s with step := Step.stateEndValue }, ScanCode.scanSkipSpace)
    else
      match ps with
      | ParseState.parseObjectKey =>
        if c = 0x3A then
          ({ s with parseState := ParseState.parseObjectValue :: rest,
                    step := Step.stateBeginValue }, ScanCode.scanObjectKey)
        else s.error c "after object key"
      | ParseState.parseObjectValue =>
        if c = 0x2C then
          ({ s with parseState := ParseState.parseObjectKey :: rest,
                    step := Step.stateBeginString }, ScanCode.scanObjectValue)
        else if c = 0x7D then (s.popParseState, ScanCode.scanEndObject)
        else s.error c "after object key:value pair"
      | ParseState.parseArrayValue =>
        if c = 0x2C then ({ s with step := Step.stateBeginValue }, ScanCode.scanArrayValue)
        else if c = 0x5D then (s.popParseState, ScanCode.scanEndArray)
        else s.error c "after array element"

def stateBeginValue (s : scanner) (c : Nat) : scanner × ScanCode :=
  if isSpace c then (s, ScanCode.scanSkipSpace)
  else if c = 0x7B then
    scanner.pushParseState { s with step := Step.stateBeginStringOrEmpty } c
      ParseState.parseObjectKey ScanCode.scanBeginObject
  else if c = 0x5B then
    scanner.pushParseState { s with step := Step.stateBeginValueOrEmpty } c
      ParseState.parseArrayValue ScanCode.scanBeginArray
  else if c = 0x22 then ({ s with step := Step.stateInString }, ScanCode.scanBeginLiteral)
  else if c = 0x2D then ({ s with step := Step.stateNeg }, ScanCode.scanBeginLiteral)
  else if c = 0x30 then ({ s with step := Step.state0 }, ScanCode.scanBeginLiteral)
  else if c = 0x74 then ({ s with step := Step.stateT }, ScanCode.scanBeginLiteral)
  else if c = 0x66 then ({ s with step := Step.stateF }, ScanCode.scanBeginLiteral)
  else if c = 0x6E then ({ s with step := Step.stateN }, ScanCode.scanBeginLiteral)
  else if isDigit19 c then ({ s with step := Step.state1 }, ScanCode.scanBeginLiteral)
  else s.error c "looking for beginning of value"

def stateBeginValueOrEmpty (s : scanner) (c : Nat) : scanner × ScanCode :=
  if isSpace c then (s, ScanCode.scanSkipSpace)
  else if c = 0x5D then stateEndValue s c
  else stateBeginValue s c

def stateBeginString (s : scanner) (c : Nat) : scanner × ScanCode :=
  if isSpace c then (s, ScanCode.scanSkipSpace)
  else if c = 0x22 then ({ s with step := Step.stateInString }, ScanCode.scanBeginLiteral)
  else s.error c "looking for beginning of object key string"

def stateBeginStringOrEmpty (s : scanner) (c : Nat) : scanner × ScanCode :=
  if isSpace c then (s, ScanCode.scanSkipSpace)
  else if c = 0x7D then
    stateEndValue { s with parseState := ParseState.parseObjectValue :: s.parseState.tail } c
  else stateBeginString s c

def stateInString (s : scanner) (c : Nat) : scanner × ScanCode :=
  if c = 0x22 then ({ s with step := Step.stateEndValue }, ScanCode.scanContinue)
  else if c = 0x5C then ({ s with step := Step.stateInStringEsc }, ScanCode.scanContinue)
  else if c < 0x20 then s.error c "in string literal"
  else (s, ScanCode.scanContinue)

def stateInStringEsc (s : scanner) (c : Nat) : scanner × ScanCode :=
  if c ∈ [0x62, 0x66, 0x6E, 0x72, 0x74, 0x5C, 0x2F, 0x22] then
    ({ s with step := Step.stateInString }, ScanCode.scanContinue)
  else if c = 0x75 then ({ s with step := Step.stateInStringEscU }, ScanCode.scanContinue)
  else s.error c "in string escape code"

/-- The four states `stateInStringEscU`, `...U1`, `...U12`, `...U123`; `next` is the state after
a hexadecimal digit. -/
def stateInStringEscHex (next : Step) (s : scanner) (c : Nat) : scanner × ScanCode :=
  if isHex c then ({ s with step := next }, ScanCode.scanContinue)
  else s.error c "in \\u hexadecimal character escape"

def state0 (s : scanner) (c : Nat) : scanner × ScanCode :=
  if c = 0x2E then ({ s with step := Step.stateDot }, ScanCode.scanContinue)
  else if c = 0x65 ∨ c = 0x45 then ({ s with step := Step.stateE }, ScanCode.scanContinue)
  else stateEndValue s c

def state1 (s : scanner) (c : Nat) : scanner × ScanCode :=
  if isDigit c then ({ s with step := Step.state1 }, ScanCode.scanContinue)
  else state0 s c

def stateNeg (s : scanner) (c : Nat) : scanner × ScanCode :=
  if c = 0x30 then ({ s with step := Step.state0 }, ScanCode.scanContinue)
  else if isDigit19 c then ({ s with step := Step.state1 }, ScanCode.scanContinue)
  else s.error c "in numeric literal"

def stateDot (s : scanner) (c : Nat) : scanner × ScanCode :=
  if isDigit c then ({ s with step := Step.stateDot0 }, ScanCode.scanContinue)
  else s.error c "after decimal point in numeric literal"

def stateDot0 (s : scanner) (c : Nat) : scanner × ScanCode :=
  if isDigit c then (s, ScanCode.scanContinue)
  else if c = 0x65 ∨ c = 0x45 then ({ s with step := Step.stateE }, ScanCode.scanContinue)
  else stateEndValue s c

def stateESign (s : scanner) (c : Nat) : scanner × ScanCode :=
  if isDigit c then ({ s with step := Step.stateE0 }, ScanCode.scanContinue)
  else s.error c "in exponent of numeric literal"

def stateE (s : scanner) (c : Nat) : scanner × ScanCode :=
  if c = 0x2B ∨ c = 0x2D then ({ s with step := Step.stateESign }, ScanCode.scanContinue)
  else stateESign s c

def stateE0 (s : scanner) (c : Nat) : scanner × ScanCode :=
  if isDigit c then (s, ScanCode.scanContinue)
  else stateEndValue s c

/-- The states inside the literals `true`, `false` and `null`: the byte `want` leads to `next`,
any other byte is an error with the given context. -/
def stateLiteral (want : Nat) (next : Step) (context : String) (s : scanner) (c : Nat) :
    scanner × ScanCode :=
  if c = want then ({ s with step := next }, ScanCode.scanContinue)
  else s.error c context

/-- The call `s.step(s, c)`. -/
def scanner.stepByte (s : scanner) (c : Nat) : scanner × ScanCode :=
  match s.step with
  | Step.stateBeginValueOrEmpty => stateBeginValueOrEmpty s c
  | Step.stateBeginValue => stateBeginValue s c
  | Step.stateBeginStringOrEmpty => stateBeginStringOrEmpty s c
  | Step.stateBeginString => stateBeginString s c
  | Step.stateEndValue => stateEndValue s c
  | Step.stateEndTop => stateEndTop s c
  | Step.stateInString => stateInString s c
  | Step.stateInStringEsc => stateInStringEsc s c
  | Step.stateInStringEscU => stateInStringEscHex Step.stateInStringEscU1 s c
  | Step.stateInStringEscU1 => stateInStringEscHex Step.stateInStringEscU12 s c
  | Step.stateInStringEscU12 => stateInStringEscHex Step.stateInStringEscU123 s c
  | Step.stateInStringEscU123 => stateInStringEscHex Step.stateInString s c
  | Step.stateNeg => stateNeg s c
  | Step.state1 => state1 s c
  | Step.state0 => state0 s c
  | Step.stateDot => stateDot s c
  | Step.stateDot0 => stateDot0 s c
  | Step.stateE => stateE s c
  | Step.stateESign => stateESign s c
  | Step.stateE0 => stateE0 s c
  | Step.stateT => stateLiteral 0x72 Step.stateTr "in literal true (expecting 'r')" s c
  | Step.stateTr => stateLiteral 0x75 Step.stateTru "in literal true (expecting 'u')" s c
  | Step.stateTru => stateLiteral 0x65 Step.stateEndValue "in literal true (expecting 'e')" s c
  | Step.stateF => stateLiteral 0x61 Step.stateFa "in literal false (expecting 'a')" s c
  | Step.stateFa => stateLiteral 0x6C Step.stateFal "in literal false (expecting 'l')" s c
  | Step.stateFal => stateLiteral 0x73 Step.stateFals "in literal false (expecting 's')" s c
  | Step.stateFals => stateLiteral 0x65 Step.stateEndValue "in literal false (expecting 'e')" s c
  | Step.stateN => stateLiteral 0x75 Step.stateNu "in literal null (expecting 'u')" s c
  | Step.stateNu => stateLiteral 0x6C Step.stateNul "in literal null (expecting 'l')" s c
  | Step.stateNul => stateLiteral 0x6C Step.stateEndValue "in literal null (expecting 'l')" s c
  | Step.stateError => (s, ScanCode.scanError)

/-- The scanner is inside an object or an array. -/
def scanner.inside (s : scanner) : Prop := s.parseState ≠ [] ∧ s.step ≠ Step.stateEndTop

/-- What a step from inside an object or array can produce: never `scanEnd`; an error, the end
  of the outermost object or array, or a state that is still inside. -/
def StepInside (r : scanner × ScanCode) : Prop :=
  r.2 ≠ ScanCode.scanEnd ∧
  (r.2 = ScanCode.scanError ∨
    ((r.2 = ScanCode.scanEndObject ∨ r.2 = ScanCode.scanEndArray) ∧
      r.1.parseState = [] ∧ r.1.step = Step.stateEndTop) ∨
    r.1.inside)

/-! ## encoding/json: the streaming decoder (`stream.go`) -/

/-- An `*UnmarshalTypeError`: a JSON value of kind `Value` met a Go value that cannot hold it.
Its message is built from `Value`, the Go type and the struct field names only. -/
structure UnmarshalTypeError where
  Value : String
  deriving DecidableEq, Repr

/-- Errors returned by the decoder. -/
inductive DecodeError where
  /-- A scanner error, message `"invalid character " + quoteChar(c) + " " + context`. -/
  | syntaxError (e : SyntaxError)
  /-- Error `&SyntaxError{"expected comma after array element", ...}` -/
  | expectedComma
  /-- Error `&SyntaxError{"expected colon after object key", ...}` -/
  | expectedColon
  /-- Error `&SyntaxError{"not at beginning of value", ...}` -/
  | notAtBeginningOfValue
  /-- The error of `Decoder.tokenError`, message `"invalid character " + quoteChar(c) + context`
  with no space between the two. -/
  | token (c : Nat) (context : String)
  /-- Error `io.EOF` -/
  | EOF
  /-- Error `io.ErrUnexpectedEOF` -/
  | ErrUnexpectedEOF
  | unmarshal (e : UnmarshalTypeError)
  deriving DecidableEq, Repr

deriving instance DecidableEq for Except

/-- Outcome of `readValue`: the length of the next value, or the error. -/
inductive ReadResult where
  | ok (n : Nat)
  | error (e : DecodeError)
  deriving DecidableEq, Repr

/-- The byte loop of `Decoder.readValue`.  `whole` is the input from `dec.scanp` on, `rest` what
is still to be scanned and `scanp` the number of bytes scanned.  The reader delivers the whole
input and then `io.EOF`.  (`scanError` is returned only after `scanner.error`, which sets `err`;
the branch for an unset `err` is never taken.) -/
def readValueLoop (whole : List Nat) : scanner → List Nat → Nat → ReadResult
  | s, [], scanp =>
    if (s.stepByte 0x20).2 = ScanCode.scanEnd then ReadResult.ok scanp
    else if whole.any (fun c => !isSpace c) then ReadResult.error DecodeError.ErrUnexpectedEOF
    else ReadResult.error DecodeError.EOF
  | s, c :: rest, scanp =>
    match (s.stepByte c).2 with
    | ScanCode.scanEnd => ReadResult.ok scanp
    | ScanCode.scanEndObject =>
      if (stateEndValue (s.stepByte c).1 0x20).2 = ScanCode.scanEnd then ReadResult.ok (scanp + 1)
      else readValueLoop whole (stateEndValue (s.stepByte c).1 0x20).1 rest (scanp + 1)
    | ScanCode.scanEndArray =>
      if (stateEndValue (s.stepByte c).1 0x20).2 = ScanCode.scanEnd then ReadResult.ok (scanp + 1)
      else readValueLoop whole (stateEndValue (s.stepByte c).1 0x20).1 rest (scanp + 1)
    | ScanCode.scanError =>
      match (s.stepByte c).1.err with
      | some e => ReadResult.error (DecodeError.syntaxError e)
      | none => ReadResult.error DecodeError.ErrUnexpectedEOF
    | _ => readValueLoop whole (s.stepByte c).1 rest (scanp + 1)

/-- Go `Decoder.readValue` on the unread input `buf`: `dec.scan.reset()` and the byte loop. -/
def readValue (buf : List Nat) : ReadResult := readValueLoop buf scanner.reset buf 0

inductive TokenState where
  | tokenTopValue | tokenArrayStart | tokenArrayValue | tokenArrayComma
  | tokenObjectStart | tokenObjectKey | tokenObjectColon | tokenObjectValue | tokenObjectComma
  deriving DecidableEq, Repr

/-- A `json.Decoder` reading a finite input.  `buf` is the input not yet consumed
(`dec.buf[dec.scanp:]` followed by what the reader still holds); `err` is the sticky `dec.err`. -/
structure Decoder where
  buf : List Nat
  err : Option DecodeError
  tokenState : TokenState
  tokenStack : List TokenState
  deriving DecidableEq, Repr

def NewDecoder (r : List Nat) : Decoder := ⟨r, none, TokenState.tokenTopValue, []⟩

/-- Go `dec.peek()`: skip white space and report the next byte without consuming it; at the end of
the input the error is `io.EOF`. -/
def Decoder.peek (dec : Decoder) : Decoder × Except DecodeError Nat :=
  match dec.buf.dropWhile isSpace with
  | [] => (dec, Except.error DecodeError.EOF)
  | c :: rest => ({ dec with buf := c :: rest }, Except.ok c)

/-- Go `dec.More()`. -/
def Decoder.More (dec : Decoder) : Decoder × Bool :=
  match dec.peek with
  | (dec1, Except.ok c) => (dec1, c ≠ 0x5D && c ≠ 0x7D)
  | (dec1, Except.error _) => (dec1, false)

def Decoder.tokenPrepareForDecode (dec : Decoder) : Decoder × Option DecodeError :=
  match dec.tokenState with
  | TokenState.tokenArrayComma =>
    match dec.peek with
    | (dec1, Except.error e) => (dec1, some e)
    | (dec1, Except.ok c) =>
      if c ≠ 0x2C then (dec1, some DecodeError.expectedComma)
      else ({ dec1 with buf := dec1.buf.drop 1, tokenState := TokenState.tokenArrayValue }, none)
  | TokenState.tokenObjectColon =>
    match dec.peek with
    | (dec1, Except.error e) => (dec1, some e)
    | (dec1, Except.ok c) =>
      if c ≠ 0x3A then (dec1, some DecodeError.expectedColon)
      else ({ dec1 with buf := dec1.buf.drop 1, tokenState := TokenState.tokenObjectValue }, none)
  | _ => (dec, none)

def Decoder.tokenValueAllowed (dec : Decoder) : Bool :=
  match dec.tokenState with
  | TokenState.tokenTopValue | TokenState.tokenArrayStart | TokenState.tokenArrayValue
  | TokenState.tokenObjectValue => true
  | _ => false

def Decoder.tokenValueEnd (dec : Decoder) : Decoder :=
  match dec.tokenState with
  | TokenState.tokenArrayStart | TokenState.tokenArrayValue =>
    { dec with tokenState := TokenState.tokenArrayComma }
  | TokenState.tokenObjectValue => { dec with tokenState := TokenState.tokenObjectComma }
  | _ => dec

/-- Go `dec.Decode(&v)`.  `unmarshal` stands for `dec.d.unmarshal(v)` on the bytes of the value just
read, for the Go type of `v`; a scanner error is stored in `dec.err`, an unmarshal error is
not. -/
def Decoder.Decode {α : Type} (unmarshal : List Nat → Except UnmarshalTypeError α)
    (dec : Decoder) : Decoder × Except DecodeError α :=
  match dec.err with
  | some e => (dec, Except.error e)
  | none =>
    match dec.tokenPrepareForDecode with
    | (dec1, some e) => (dec1, Except.error e)
    | (dec1, none) =>
      if !dec1.tokenValueAllowed then (dec1, Except.error DecodeError.notAtBeginningOfValue)
      else
        match readValue dec1.buf with
        | ReadResult.error e => ({ dec1 with err := some e }, Except.error e)
        | ReadResult.ok n =>
          let dec2 := { dec1 with buf := dec1.buf.drop n }
          match unmarshal (dec1.buf.take n) with
          | Except.ok v => (dec2.tokenValueEnd, Except.ok v)
          | Except.error e => (dec2.tokenValueEnd, Except.error (DecodeError.unmarshal e))

/-- A `json.Token`: a delimiter, or a scalar value (whose content is never inspected here). -/
inductive Token where
  | Delim (c : Nat)
  | value
  deriving DecidableEq, Repr

/-- Go `dec.Token()` on a decoder in state `tokenTopValue`, the state of a new decoder and of the
only call in this repository.  A scalar is read with `dec.Decode(&x)` for `x` of type `any`. -/
def Decoder.Token (dec : Decoder) : Decoder × Except DecodeError Token :=
  match dec.peek with
  | (dec1, Except.error e) => (dec1, Except.error e)
  | (dec1, Except.ok c) =>
    if c = 0x5B then
      ({ dec1 with buf := dec1.buf.drop 1, tokenStack := dec1.tokenState :: dec1.tokenStack,
                   tokenState := TokenState.tokenArrayStart }, Except.ok (Token.Delim 0x5B))
    else if c = 0x7B then
      ({ dec1 with buf := dec1.buf.drop 1, tokenStack := dec1.tokenState :: dec1.tokenStack,
                   tokenState := TokenState.tokenObjectStart }, Except.ok (Token.Delim 0x7B))
    else if c = 0x5D ∨ c = 0x7D ∨ c = 0x3A ∨ c = 0x2C then
      (dec1, Except.error (DecodeError.token c " looking for beginning of value"))
    else dec1.Decode (fun _ => Except.ok Token.value)

/-- The test `strings.Contains(err.Error(), "invalid character ']'")`.  Only scanner errors have
a message starting with `invalid character` followed by a space and the quoted byte, and
`quoteChar(c)` is `']'` exactly for the byte `]`; `io` errors and unmarshal type errors do not
contain the text. -/
def mentionsInvalidBracket : DecodeError → Bool
  | DecodeError.syntaxError e => e.c = 0x5D
  | DecodeError.token c _ => c = 0x5D
  | _ => false

end json

/-! ## internal/lgpn: rows and their JSON form -/

namespace lgpn

/-- The struct `nameRow`; every field is a Go string. -/
structure nameRow where
  Name : List Nat
  NotBefore : List Nat
  NotAfter : List Nat
  deriving DecidableEq, Repr

/-- Go `utf8.EncodeRune`: surrogates and values above `MaxRune` are written as the error rune. -/
def EncodeRune (r : Nat) : List Nat :=
  if Go.maxRune < r ∨ (Go.surrogateMin ≤ r ∧ r ≤ Go.surrogateMax) then Go.encodeRune Go.runeError
  else Go.encodeRune r

/-- Value of one hexadecimal digit (the digits were checked by the scanner). -/
def hexVal (c : Nat) : Nat :=
  if json.isDigit c then c - 0x30
  else if 0x61 ≤ c ∧ c ≤ 0x66 then c - 0x61 + 10
  else c - 0x41 + 10

/-- Go `getu4`: the code unit of a `\uXXXX` escape at the head of `s`, if there is one. -/
def getu4 (s : List Nat) : Option Nat :=
  match s with
  | 0x5C :: 0x75 :: a :: b :: c :: d :: _ =>
    if json.isHex a ∧ json.isHex b ∧ json.isHex c ∧ json.isHex d then
      some (hexVal a * 4096 + hexVal b * 256 + hexVal c * 16 + hexVal d)
    else none
  | _ => none

/-- Go `utf16.DecodeRune(r1, r2)` for a second unit that may be missing. -/
def utf16DecodeRune (r1 : Nat) (r2 : Option Nat) : Nat :=
  match r2 with
  | some r2 =>
    if 0xD800 ≤ r1 ∧ r1 < 0xDC00 ∧ 0xDC00 ≤ r2 ∧ r2 < 0xE000 then
      (r1 - 0xD800) * 1024 + (r2 - 0xDC00) + 0x10000
    else Go.runeError
  | none => Go.runeError

/-- The decoding loop of `unquoteBytes` on the bytes between the quotes of a string literal the
scanner accepted: escapes are replaced, ill-formed UTF-8 is coerced to the error rune. -/
def unquoteLoop : Nat → List Nat → List Nat
  | 0, _ => []
  | _ + 1, [] => []
  | fuel + 1, c :: rest =>
    if c = 0x5C then
      match rest with
      | 0x75 :: _ =>
        match getu4 (c :: rest) with
        | none => []
        | some rr =>
          if 0xD800 ≤ rr ∧ rr < 0xE000 then
            if utf16DecodeRune rr (getu4 (rest.drop 5)) ≠ Go.runeError then
              EncodeRune (utf16DecodeRune rr (getu4 (rest.drop 5)))
                ++ unquoteLoop fuel (rest.drop 11)
            else EncodeRune Go.runeError ++ unquoteLoop fuel (rest.drop 5)
          else EncodeRune rr ++ unquoteLoop fuel (rest.drop 5)
      | e :: rest1 =>
        (if e = 0x62 then 0x08 else if e = 0x66 then 0x0C else if e = 0x6E then 0x0A
          else if e = 0x72 then 0x0D else if e = 0x74 then 0x09 else e) :: unquoteLoop fuel rest1
      | [] => []
    else if c < Go.runeSelf then c :: unquoteLoop fuel rest
    else
      EncodeRune (Go.nextRune (c :: rest)).1
        ++ unquoteLoop fuel ((c :: rest).drop (Go.nextRune (c :: rest)).2)

/-- Go `unquoteBytes` on a whole string literal, quotes included. -/
def unquote (lit : List Nat) : List Nat :=
  unquoteLoop lit.length ((lit.drop 1).take (lit.length - 2))

/-- What the decoder distinguishes in a JSON value that meets a Go string or struct. -/
inductive Kind where
  | null | bool | number | array | object
  | string (s : List Nat)
  deriving DecidableEq, Repr

/-- Kind of the JSON value whose bytes are `v` (no surrounding white space). -/
def kindOf (v : List Nat) : Kind :=
  match v with
  | 0x22 :: _ => Kind.string (unquote v)
  | 0x7B :: _ => Kind.object
  | 0x5B :: _ => Kind.array
  | 0x6E :: _ => Kind.null
  | 0x74 :: _ => Kind.bool
  | 0x66 :: _ => Kind.bool
  | _ => Kind.number

/-- The members of a JSON object, read from the bytes after its opening brace: the unquoted key
and the kind of the value of each, in order.  `none` if the bytes are not an object body. -/
def objectMembers : Nat → List Nat → Option (List (List Nat × Kind))
  | 0, _ => none
  | fuel + 1, s =>
    match json.readValue (s.dropWhile json.isSpace) with
    | json.ReadResult.error _ => none
    | json.ReadResult.ok n =>
      let key := (s.dropWhile json.isSpace).take n
      match ((s.dropWhile json.isSpace).drop n).dropWhile json.isSpace with
      | 0x3A :: s1 =>
        match json.readValue (s1.dropWhile json.isSpace) with
        | json.ReadResult.error _ => none
        | json.ReadResult.ok m =>
          let member := (unquote key, kindOf ((s1.dropWhile json.isSpace).take m))
          match ((s1.dropWhile json.isSpace).drop m).dropWhile json.isSpace with
          | 0x2C :: s2 => (objectMembers fuel s2).map (fun ms => member :: ms)
          | 0x7D :: _ => some [member]
          | _ => none
      | _ => none

/-- ASCII upper-casing of a key, the folding under which the decoder compares it with the field
names `name`, `notBefore` and `notAfter`. -/
def foldName (key : List Nat) : List Nat :=
  key.map (fun c => if 0x61 ≤ c ∧ c ≤ 0x7A then c - 0x20 else c)

/-- Store one object member into the row, as `decodeState.object` does for a struct of three
string fields: a string sets the matching field, `null` and unknown keys change nothing, any
other kind records an `UnmarshalTypeError` (the first one is kept) and decoding goes on. -/
def storeMember (acc : nameRow × Option json.UnmarshalTypeError) (m : List Nat × Kind) :
    nameRow × Option json.UnmarshalTypeError :=
  let known := foldName m.1 = Go.bytes "NAME" ∨ foldName m.1 = Go.bytes "NOTBEFORE" ∨
    foldName m.1 = Go.bytes "NOTAFTER"
  match m.2 with
  | Kind.string s =>
    if foldName m.1 = Go.bytes "NAME" then ({ acc.1 with Name := s }, acc.2)
    else if foldName m.1 = Go.bytes "NOTBEFORE" then ({ acc.1 with NotBefore := s }, acc.2)
    else if foldName m.1 = Go.bytes "NOTAFTER" then ({ acc.1 with NotAfter := s }, acc.2)
    else acc
  | Kind.null => acc
  | Kind.bool => if known then (acc.1, acc.2.orElse (fun _ => some ⟨"bool"⟩)) else acc
  | Kind.number => if known then (acc.1, acc.2.orElse (fun _ => some ⟨"number"⟩)) else acc
  | Kind.array => if known then (acc.1, acc.2.orElse (fun _ => some ⟨"array"⟩)) else acc
  | Kind.object => if known then (acc.1, acc.2.orElse (fun _ => some ⟨"object"⟩)) else acc

/-- Modelled from the Go standard library: `dec.d.unmarshal(&row)` for a fresh `row` of type
`nameRow`, on the bytes of one value the scanner accepted.  An object fills the row member by
member, `null` leaves the zero row, every other value is an `UnmarshalTypeError`. -/
def unmarshal (data : List Nat) : Except json.UnmarshalTypeError nameRow :=
  match data.dropWhile json.isSpace with
  | 0x7B :: s =>
    match s.dropWhile json.isSpace with
    | 0x7D :: _ => Except.ok ⟨[], [], []⟩
    | _ =>
      match objectMembers s.length s with
      | none => Except.error ⟨"object"⟩
      | some ms =>
        match ms.foldl storeMember (⟨[], [], []⟩, none) with
        | (row, none) => Except.ok row
        | (_, some e) => Except.error e
  | 0x6E :: _ => Except.ok ⟨[], [], []⟩
  | 0x5B :: _ => Except.error ⟨"array"⟩
  | 0x22 :: _ => Except.error ⟨"string"⟩
  | 0x74 :: _ => Except.error ⟨"bool"⟩
  | 0x66 :: _ => Except.error ⟨"bool"⟩
  | _ => Except.error ⟨"number"⟩

end lgpn

/-! ## internal/lgpn: the download, the cache and `Names` -/

namespace lgpn

/-- Lines written to `os.Stderr`. -/
inductive LogLine where
  /-- Line `"json error: %v\n"` -/
  | jsonError (e : json.DecodeError)
  /-- Line `"json error: unexpected token %q\n"` -/
  | unexpectedToken (t : json.Token)
  /-- Line `"Downloading name list and building cache (this may take a minute)..."` -/
  | downloading
  /-- Line `" done."` -/
  | done
  deriving DecidableEq, Repr

/-- What the goroutine started by `downloadNames` does with the channel `names`: the rows it
sends, in order, whether it reaches `close(names)` within the iteration budget, and what it
writes to `os.Stderr`. -/
structure RowStream where
  rows : List nameRow
  closed : Bool
  stderr : List LogLine
  deriving DecidableEq, Repr

/-- The loop `for dec.More() { ... }` of the goroutine.  `unm` is `dec.d.unmarshal` for a fresh
`nameRow`; `fuel` bounds the number of evaluations of the loop condition. -/
def decodeLoop (unm : List Nat → Except json.UnmarshalTypeError nameRow) :
    Nat → json.Decoder → RowStream
  | 0, _ => ⟨[], false, []⟩
  | fuel + 1, dec =>
    match dec.More with
    | (_, false) => ⟨[], true, []⟩
    | (dec1, true) =>
      match dec1.Decode unm with
      | (dec2, Except.error e) =>
        if json.mentionsInvalidBracket e then decodeLoop unm fuel dec2
        else ⟨[], true, [LogLine.jsonError e]⟩
      | (dec2, Except.ok row) =>
        ⟨row :: (decodeLoop unm fuel dec2).rows, (decodeLoop unm fuel dec2).closed,
          (decodeLoop unm fuel dec2).stderr⟩

/-- The goroutine of `downloadNames` on the response body: first token, then the loop. -/
def decodeBody (unm : List Nat → Except json.UnmarshalTypeError nameRow) (fuel : Nat)
    (body : List Nat) : RowStream :=
  match (json.NewDecoder body).Token with
  | (_, Except.error e) => ⟨[], true, [LogLine.jsonError e]⟩
  | (dec, Except.ok first) =>
    if first ≠ json.Token.Delim 0x5B then ⟨[], true, [LogLine.unexpectedToken first]⟩
    else decodeLoop unm fuel dec

/-- An HTTP response as far as `downloadNames` reads it. -/
structure Response where
  StatusCode : Nat
  Body : List Nat
  deriving DecidableEq, Repr

/-- A value as SQLite keeps it in a column: the storage classes INTEGER, REAL (a finite double is
a rational number) and TEXT. -/
inductive SqlValue where
  | integer (i : Int)
  | real (x : Rat)
  | text (s : List Nat)
  deriving DecidableEq, Repr

/-- What the world outside the program does during one call of `Names`: the answer of the
server, how SQLite converts a bound text, and which database operations fail. -/
structure Env where
  /-- The value SQLite stores when a text is bound to a column declared `INTEGER`, as
  `not_before` and `not_after` are in the schema of `cache.go`: a text that reads as a number is
  converted (`"-0100"` is stored as the integer `-100`), any other text is kept. -/
  affinity : List Nat → SqlValue
  /-- Outcome of `http.DefaultClient.Do(req)`; `none` is a request error. -/
  response : Option Response
  /-- Call `sql.Open` fails. -/
  openFails : Bool
  /-- The `CREATE TABLE IF NOT EXISTS` statement fails. -/
  schemaFails : Bool
  /-- Statement `SELECT COUNT(*)` fails. -/
  countFails : Bool
  /-- Call `BeginTx` fails. -/
  beginFails : Bool
  /-- Call `tx.Prepare` fails. -/
  prepareFails : Bool
  /-- Index (from 0) of the row whose `stmt.Exec` fails, if any. -/
  insertFails : Option Nat
  /-- Call `tx.Commit` fails. -/
  commitFails : Bool
  /-- Statement `SELECT name FROM names` fails. -/
  queryFails : Bool
  /-- Number of names delivered before the scan goroutine stops early (context done or a row
  error), if it does. -/
  scanStops : Option Nat

/-- An environment in which every database operation succeeds and the scan is not cut short. -/
def Env.serving (affinity : List Nat → SqlValue) (response : Option Response) : Env :=
  ⟨affinity, response, false, false, false, false, false, none, false, false, none⟩

/-- A row of the table `names`: `id INTEGER PRIMARY KEY AUTOINCREMENT`, `name TEXT`,
`not_before INTEGER` and `not_after INTEGER`. -/
structure StoredRow where
  id : Nat
  name : List Nat
  not_before : SqlValue
  not_after : SqlValue
  deriving DecidableEq, Repr

/-- The SQLite file: the rows of `names` in rowid order (a missing table has no rows and is
created on open) and the `AUTOINCREMENT` counter, the largest rowid handed out so far. -/
structure Store where
  rows : List StoredRow
  seq : Nat
  deriving DecidableEq, Repr

/-- Statement `INSERT INTO names (name, not_before, not_after) VALUES (?, ?, ?)`: the new row gets a rowid
larger than the counter and than every rowid of the table, and is the last in rowid order.  The
name goes into a `TEXT` column and is kept as sent; the two dates go into `INTEGER` columns and
are stored as `affinity` converts them. -/
def Store.insert (affinity : List Nat → SqlValue) (st : Store) (row : nameRow) : Store :=
  let id := max st.seq (st.rows.foldl (fun m r => max m r.id) 0) + 1
  ⟨st.rows ++ [⟨id, row.Name, affinity row.NotBefore, affinity row.NotAfter⟩], id⟩

inductive FetchError where
  /-- Message `"unable to make request: %w"` -/
  | request
  /-- Message `"LGPN returned unexpected status: %s"` -/
  | unexpectedStatus (code : Nat)
  deriving DecidableEq, Repr

inductive PopulateError where
  /-- Message `"unable to start transaction: %w"` -/
  | beginTx
  /-- Message `"unable to prepare insert query: %w"` -/
  | prepare
  /-- Message `"insert failed for row %v: %w"` -/
  | insert (row : nameRow)
  /-- The error of `tx.Commit()`. -/
  | commit
  deriving DecidableEq, Repr

/-- The errors `client.Names` returns. -/
inductive Error where
  /-- Message `"unable to open cache db: %w"` -/
  | openCache
  /-- Message `"unable to create schema: %w"` -/
  | createSchema
  /-- Message `"unable to count names: %w"` -/
  | countNames
  /-- Message `"unable to download names: %w"` -/
  | downloadNames (e : FetchError)
  /-- Message `"unable to populate name cache: %w"` -/
  | populate (e : PopulateError)
  /-- Message `"unable to query names: %w"` -/
  | queryNames
  deriving DecidableEq, Repr

/-- What happens during a call of `Names` and while its channel is read, in order. -/
inductive Event where
  /-- Call `sql.Open` returned the handle. -/
  | dbOpen
  /-- Call `c.db.Close()` -/
  | dbClose
  /-- Statement `SELECT COUNT(*) FROM names` -/
  | countQuery
  | stderr (l : LogLine)
  /-- Call `http.DefaultClient.Do(req)` -/
  | httpGet
  | txBegin
  | insert (row : nameRow)
  | txCommit
  | txRollback
  /-- Statement `SELECT name FROM names` -/
  | namesQuery
  /-- The caller receives a name from the returned channel. -/
  | receive (name : List Nat)
  /-- The caller finds the returned channel closed. -/
  | receiveClosed
  deriving DecidableEq, Repr

/-- Go `client.downloadNames`: request error, status check, then the goroutine. -/
def client.downloadNames (unm : List Nat → Except json.UnmarshalTypeError nameRow) (fuel : Nat)
    (env : Env) : Except FetchError RowStream :=
  match env.response with
  | none => Except.error FetchError.request
  | some res =>
    if res.StatusCode ≠ 200 then Except.error (FetchError.unexpectedStatus res.StatusCode)
    else Except.ok (decodeBody unm fuel res.Body)

/-- Go `cache.Count`. -/
def cache.Count (env : Env) (st : Store) : Option Nat :=
  if env.countFails then none else some st.rows.length

/-- A database transaction: the table as the transaction sees it, and whether the transaction
is over (committed or rolled back). -/
structure Tx where
  pending : Store
  done : Bool
  deriving DecidableEq, Repr

/-- Go `stmt.Exec(row.Name, row.NotBefore, row.NotAfter)` inside the transaction. -/
def Tx.Exec (affinity : List Nat → SqlValue) (tx : Tx) (row : nameRow) : Tx :=
  { tx with pending := Store.insert affinity tx.pending row }

/-- Go `tx.Commit()` against the database `db`: on success the database becomes what the
transaction saw; on failure the transaction is rolled back.  The result is the database, the
transaction and whether the commit failed. -/
def Tx.Commit (commitFails : Bool) (db : Store) (tx : Tx) : Store × Tx × Bool :=
  if tx.done then (db, tx, true)
  else if commitFails then (db, { tx with done := true }, true)
  else (tx.pending, { tx with done := true }, false)

/-- Go `tx.Rollback()`: the database keeps its committed content; a no-op after `Commit()`. -/
def Tx.Rollback (db : Store) (tx : Tx) : Store × Tx × List Event :=
  if tx.done then (db, tx, [])
  else (db, { tx with done := true }, [Event.txRollback])

/-- The loop `for row := range rows` of `cache.Populate` inside the transaction `tx`: the state
of the transaction, the inserts made, and the row whose insert failed, if any.  `i` is the index
of the next row. -/
def cache.populateLoop (affinity : List Nat → SqlValue) (insertFails : Option Nat) :
    List nameRow → Nat → Tx → Tx × List Event × Option nameRow
  | [], _, tx => (tx, [], none)
  | row :: rest, i, tx =>
    if insertFails = some i then (tx, [], some row)
    else
      ((populateLoop affinity insertFails rest (i + 1) (tx.Exec affinity row)).1,
        Event.insert row ::
          (populateLoop affinity insertFails rest (i + 1) (tx.Exec affinity row)).2.1,
        (populateLoop affinity insertFails rest (i + 1) (tx.Exec affinity row)).2.2)

/-- Go `cache.Populate` on the database `st`: the database afterwards, the events and the error.
The deferred `tx.Rollback()` runs on every return after `BeginTx`.  `none` means that the call
does not return: every row sent was inserted and the channel is never closed. -/
def cache.Populate (env : Env) (st : Store) (rows : RowStream) :
    Option (Store × List Event × Option PopulateError) :=
  if env.beginFails then some (st, [], some PopulateError.beginTx)
  else
    let tx : Tx := ⟨st, false⟩
    if env.prepareFails then
      some ((tx.Rollback st).1, Event.txBegin :: (tx.Rollback st).2.2,
        some PopulateError.prepare)
    else
      match cache.populateLoop env.affinity env.insertFails rows.rows 0 tx with
      | (tx1, tr, some row) =>
        some ((tx1.Rollback st).1, Event.txBegin :: tr ++ (tx1.Rollback st).2.2,
          some (PopulateError.insert row))
      | (tx1, tr, none) =>
        if !rows.closed then none
        else
          match tx1.Commit env.commitFails st with
          | (db, tx2, true) =>
            some ((tx2.Rollback db).1, Event.txBegin :: tr ++ [Event.txRollback],
              some PopulateError.commit)
          | (db, tx2, false) =>
            some ((tx2.Rollback db).1, Event.txBegin :: tr ++ [Event.txCommit], none)

/-- Go `cache.Names`: the names the returned channel delivers when it is read to the end, in the
order of the scan, or `none` if the query fails. -/
def cache.Names (env : Env) (st : Store) : Option (List (List Nat)) :=
  if env.queryFails then none
  else
    match env.scanStops with
    | none => some (st.rows.map (fun r => r.name))
    | some k => some ((st.rows.map (fun r => r.name)).take k)

/-- The three columns of a stored row that the `INSERT` statement sets. -/
def StoredRow.columns (r : StoredRow) : List Nat × SqlValue × SqlValue :=
  (r.name, r.not_before, r.not_after)

/-- The three columns the `INSERT` statement stores for a row under the conversion `affinity`. -/
def nameRow.columns (affinity : List Nat → SqlValue) (r : nameRow) :
    List Nat × SqlValue × SqlValue :=
  (r.Name, affinity r.NotBefore, affinity r.NotAfter)

/-- Outcome of a call of `client.Names`. -/
structure NamesResult where
  /-- The store after the call. -/
  store : Store
  /-- The events up to the return of the call. -/
  trace : List Event
  /-- The returned error, or the names the returned channel delivers. -/
  result : Except Error (List (List Nat))
  deriving DecidableEq

/-- Go `newCache`: the events and the error.  When the schema statement fails the handle is
closed again before the error is returned. -/
def newCache (env : Env) : List Event × Option Error :=
  if env.openFails then ([], some Error.openCache)
  else if env.schemaFails then ([Event.dbOpen, Event.dbClose], some Error.createSchema)
  else ([Event.dbOpen], none)

/-- The last statement of `client.Names`, `return cache.Names(ctx)`, after the events `pre`. -/
def client.finish (env : Env) (st : Store) (pre : List Event) : NamesResult :=
  match cache.Names env st with
  | none => ⟨st, pre ++ [Event.namesQuery], Except.error Error.queryNames⟩
  | some names => ⟨st, pre ++ [Event.namesQuery], Except.ok names⟩

/-- The statements of `client.Names` that follow `defer cache.Close()`. -/
def client.namesBody (unm : List Nat → Except json.UnmarshalTypeError nameRow) (fuel : Nat)
    (env : Env) (st : Store) : Option NamesResult :=
  match cache.Count env st with
  | none => some ⟨st, [Event.countQuery], Except.error Error.countNames⟩
  | some count =>
    if count = 0 then
      match client.downloadNames unm fuel env with
      | Except.error e =>
        some ⟨st, [Event.countQuery, Event.stderr LogLine.downloading, Event.httpGet],
          Except.error (Error.downloadNames e)⟩
      | Except.ok rows =>
        match cache.Populate env st rows with
        | none => none
        | some (st1, tr, some e) =>
          some ⟨st1, [Event.countQuery, Event.stderr LogLine.downloading, Event.httpGet] ++ tr,
            Except.error (Error.populate e)⟩
        | some (st1, tr, none) =>
          some (client.finish env st1 ([Event.countQuery, Event.stderr LogLine.downloading,
            Event.httpGet] ++ tr ++ [Event.stderr LogLine.done]))
    else some (client.finish env st [Event.countQuery])

/-- Go `client.Names`: `newCache`, then the body, then the deferred `cache.Close()`, which runs on
every return of the body and before the caller gets the channel.  `none` means that the call
does not return within the budget `fuel` of the decoding loop. -/
def client.Names (unm : List Nat → Except json.UnmarshalTypeError nameRow) (fuel : Nat)
    (env : Env) (st : Store) : Option NamesResult :=
  match newCache env with
  | (tr, some e) => some ⟨st, tr, Except.error e⟩
  | (tr, none) =>
    match client.namesBody unm fuel env st with
    | none => none
    | some r => some ⟨r.store, tr ++ r.trace ++ [Event.dbClose], r.result⟩

/-- The events of a call of `Names` followed by reading the returned channel to the end.  The
channel is unbuffered and reaches the caller only when `Names` returns, so every receive comes
after the events of the call. -/
def session (r : NamesResult) : List Event :=
  match r.result with
  | Except.ok names => r.trace ++ names.map Event.receive ++ [Event.receiveClosed]
  | Except.error _ => r.trace

/-- The text `[` e₁ `,` e₂ `,` … eₙ `,` `]` after its opening bracket: every element is written
as white space, the object, white space and a comma; `fin` is the rest of the body. -/
def arrayBody : List (List Nat × List Nat × List Nat) → List Nat → List Nat
  | [], fin => fin
  | e :: es, fin => e.1 ++ e.2.1 ++ e.2.2 ++ 0x2C :: arrayBody es fin

/-- A JSON array with a comma after each element, the last included, possibly after white
space `lead`, with white space `gap` before the closing bracket and any bytes `tail` after. -/
def trailingCommaArray (lead : List Nat) (es : List (List Nat × List Nat × List Nat))
    (gap tail : List Nat) : List Nat :=
  lead ++ 0x5B :: arrayBody es (gap ++ 0x5D :: tail)

/-- An element of the array text that the decoder turns into the row `r`: white space, a text
that begins with a brace, that `json.readValue` accepts as exactly one value and that `unm`
decodes to `r` (also after white space), and white space. -/
def IsNameObject (unm : List Nat → Except json.UnmarshalTypeError nameRow)
    (e : List Nat × List Nat × List Nat) (r : nameRow) : Prop :=
  e.1.all json.isSpace = true ∧ e.2.2.all json.isSpace = true ∧
  (∃ t, e.2.1 = 0x7B :: t) ∧
  json.readValue e.2.1 = json.ReadResult.ok e.2.1.length ∧
  (∀ ws, ws.all json.isSpace = true → unm (ws ++ e.2.1) = Except.ok r)

/-- The errors of `client.Names` that come from opening the cache, counting, downloading or
populating. -/
def Error.beforeQuery (e : Error) : Prop :=
  e = Error.openCache ∨ e = Error.createSchema ∨ e = Error.countNames ∨
  (∃ f, e = Error.downloadNames f) ∨ (∃ p, e = Error.populate p)

/-- The events of a successful cold call. -/
def coldTrace (rows : List nameRow) : List Event :=
  [Event.dbOpen, Event.countQuery, Event.stderr LogLine.downloading, Event.httpGet]
    ++ (Event.txBegin :: rows.map Event.insert ++ [Event.txCommit])
    ++ [Event.stderr LogLine.done] ++ [Event.namesQuery, Event.dbClose]

/-- The payload `[{"name":"A","notBefore":"1","notAfter":"2"},]`. -/
def payloadA : List Nat := Go.bytes "[\x7b\"name\":\"A\",\"notBefore\":\"1\",\"notAfter\":\"2\"\x7d,]"

/-- The only element of `payloadA`. -/
def objectA : List Nat := Go.bytes "\x7b\"name\":\"A\",\"notBefore\":\"1\",\"notAfter\":\"2\"\x7d"

/-- The row of `objectA`. -/
def rowA : nameRow := ⟨Go.bytes "A", Go.bytes "1", Go.bytes "2"⟩

/-- The payload `[{"name":"A"},{]`: a complete record, then an object cut short by the closing
bracket. -/
def payloadCut : List Nat := Go.bytes "[\x7b\"name\":\"A\"\x7d,\x7b]"

/-- Whether the text is one to eighteen ASCII decimal digits, a run whose value fits a 64-bit
integer. -/
def isDigits (s : List Nat) : Bool :=
  !s.isEmpty && decide (s.length ≤ 18) && s.all (fun c => decide (0x30 ≤ c ∧ c ≤ 0x39))

/-- Decimal value of a run of ASCII digits. -/
def digitsValue (s : List Nat) : Nat := s.foldl (fun n c => 10 * n + (c - 0x30)) 0

/-- The conversion of SQLite's `INTEGER` affinity on plain decimal integers: an optional sign
followed by one to eighteen decimal digits is stored as that integer (`"-0100"` as `-100`), and
the empty text, which is no number, is kept as text.  Every other text (white space, fractions,
exponents, longer digit runs, words) is left to `other`. -/
def integerAffinity (other : List Nat → SqlValue) (s : List Nat) : SqlValue :=
  match s with
  | [] => SqlValue.text []
  | 0x2D :: d => if isDigits d then SqlValue.integer (-(digitsValue d : Int)) else other s
  | 0x2B :: d => if isDigits d then SqlValue.integer (digitsValue d) else other s
  | _ => if isDigits s then SqlValue.integer (digitsValue s) else other s

end lgpn

/-! ## Properties -/

namespace Go

theorem decoderune_width (s : List Nat) : 1 ≤ (decoderune s).2 ∧ (decoderune s).2 ≤ 4 := by
  unfold decoderune
  simp only
  split_ifs <;> simp

theorem nextRune_width (s : List Nat) : 1 ≤ (nextRune s).2 ∧ (nextRune s).2 ≤ 4 := by
  unfold nextRune
  split_ifs
  · simp
  · exact decoderune_width s

theorem getD_append_of_lt (s t : List Nat) (i : Nat) (h : i < s.length) :
    (s ++ t).getD i 0 = s.getD i 0 := by
  simp [List.getD_eq_getElem?_getD, List.getElem?_append_left h]

theorem decoderune_append (s t : List Nat)
    (h : ¬ ((decoderune s).1 = runeError ∧ (decoderune s).2 = 1)) :
    decoderune (s ++ t) = decoderune s ∧ (decoderune s).2 ≤ s.length := by
  unfold decoderune at h ⊢
  simp only at h ⊢
  by_cases h0 : s.length = 0
  · simp [h0] at h
  have hpos : 0 < s.length := Nat.pos_of_ne_zero h0
  have e0 : (s ++ t).getD 0 0 = s.getD 0 0 := getD_append_of_lt s t 0 hpos
  have hl : (s ++ t).length ≠ 0 := by simp; intro h; simp [h] at h0
  rw [e0]
  simp only [h0, if_false] at h ⊢
  rw [if_neg hl]
  have hlen : (s ++ t).length = s.length + t.length := List.length_append s t
  split_ifs at h with c1 c2 c3 c4 c5 c6 c7 c8 c9 <;> simp at h
  · have e1 := getD_append_of_lt s t 1 (by omega)
    have l1 : 1 < (s ++ t).length := by omega
    rw [e1]
    clear hlen
    simp only [*, and_self, if_true, if_false, not_false_eq_true, true_and, and_true]
    omega
  · have e1 := getD_append_of_lt s t 1 (by omega)
    have e2 := getD_append_of_lt s t 2 (by omega)
    have l1 : 2 < (s ++ t).length := by omega
    rw [e1, e2]
    clear hlen
    simp only [*, and_self, if_true, if_false, not_false_eq_true, true_and, and_true]
    omega
  · have e1 := getD_append_of_lt s t 1 (by omega)
    have e2 := getD_append_of_lt s t 2 (by omega)
    have e3 := getD_append_of_lt s t 3 (by omega)
    have l1 : 3 < (s ++ t).length := by omega
    rw [e1, e2, e3]
    clear hlen
    simp only [*, and_self, if_true, if_false, not_false_eq_true, true_and, and_true]
    omega

theorem nextRune_append (s t : List Nat) (hs : s ≠ [])
    (h : ¬ ((nextRune s).1 = runeError ∧ (nextRune s).2 = 1)) :
    nextRune (s ++ t) = nextRune s ∧ (nextRune s).2 ≤ s.length := by
  have hpos : 0 < s.length := List.length_pos.mpr hs
  have e0 : (s ++ t).getD 0 0 = s.getD 0 0 := getD_append_of_lt s t 0 hpos
  unfold nextRune at h ⊢
  rw [e0]
  split_ifs at h ⊢ with c
  · exact ⟨rfl, hpos⟩
  · exact decoderune_append s t h

theorem rangeLoop_fuel : ∀ (f g : Nat) (s : List Nat), s.length ≤ f → s.length ≤ g →
    rangeLoop f s = rangeLoop g s
  | 0, g, s, hf, _ => by
    have : s = [] := List.length_eq_zero.mp (Nat.le_zero.mp hf)
    subst this
    cases g <;> rfl
  | f + 1, 0, s, _, hg => by
    have : s = [] := List.length_eq_zero.mp (Nat.le_zero.mp hg)
    subst this
    rfl
  | f + 1, g + 1, [], _, _ => rfl
  | f + 1, g + 1, b :: bs, hf, hg => by
    have hw := (nextRune_width (b :: bs)).1
    have hd : ((b :: bs).drop (nextRune (b :: bs)).2).length ≤ bs.length := by
      simp only [List.length_drop, List.length_cons]; omega
    simp only [List.length_cons] at hf hg
    simp only [rangeLoop]
    rw [rangeLoop_fuel f g _ (by omega) (by omega)]

theorem rangeRunes_nil : rangeRunes [] = [] := rfl

theorem rangeRunes_cons (b : Nat) (bs : List Nat) :
    rangeRunes (b :: bs) =
      (nextRune (b :: bs)).1 :: rangeRunes ((b :: bs).drop (nextRune (b :: bs)).2) := by
  have hw := (nextRune_width (b :: bs)).1
  have hd : ((b :: bs).drop (nextRune (b :: bs)).2).length ≤ bs.length := by
    simp only [List.length_drop, List.length_cons]; omega
  simp only [rangeRunes, List.length_cons, rangeLoop]
  rw [rangeLoop_fuel bs.length _ _ hd (le_refl _)]

theorem validLoop_fuel : ∀ (f g : Nat) (s : List Nat), s.length ≤ f → s.length ≤ g →
    validLoop f s = validLoop g s
  | 0, g, s, hf, _ => by
    have : s = [] := List.length_eq_zero.mp (Nat.le_zero.mp hf)
    subst this
    cases g <;> rfl
  | f + 1, 0, s, _, hg => by
    have : s = [] := List.length_eq_zero.mp (Nat.le_zero.mp hg)
    subst this
    rfl
  | f + 1, g + 1, [], _, _ => rfl
  | f + 1, g + 1, b :: bs, hf, hg => by
    have hw := (nextRune_width (b :: bs)).1
    have hd : ((b :: bs).drop (nextRune (b :: bs)).2).length ≤ bs.length := by
      simp only [List.length_drop, List.length_cons]; omega
    simp only [List.length_cons] at hf hg
    simp only [validLoop]
    rw [validLoop_fuel f g _ (by omega) (by omega)]

theorem ValidString_cons (b : Nat) (bs : List Nat) :
    ValidString (b :: bs) =
      (if (nextRune (b :: bs)).1 = runeError ∧ (nextRune (b :: bs)).2 = 1 then false
       else ValidString ((b :: bs).drop (nextRune (b :: bs)).2)) := by
  have hw := (nextRune_width (b :: bs)).1
  have hd : ((b :: bs).drop (nextRune (b :: bs)).2).length ≤ bs.length := by
    simp only [List.length_drop, List.length_cons]; omega
  simp only [ValidString, List.length_cons, validLoop]
  rw [validLoop_fuel bs.length _ _ hd (le_refl _)]

/-- Ranging over a concatenation whose left part is valid UTF-8 visits the runes of the left
part and then those of the right part. -/
theorem rangeRunes_append_of_valid : ∀ (n : Nat) (a b : List Nat), a.length ≤ n →
    ValidString a = true → rangeRunes (a ++ b) = rangeRunes a ++ rangeRunes b
  | _, [], b, _, _ => by simp [rangeRunes_nil]
  | 0, x :: xs, _, hn, _ => by simp at hn
  | n + 1, x :: xs, b, hn, hv => by
    rw [ValidString_cons] at hv
    split_ifs at hv with c
    obtain ⟨e, hle⟩ := nextRune_append (x :: xs) b (by simp) c
    have hw := (nextRune_width (x :: xs)).1
    rw [rangeRunes_cons x xs, List.cons_append, rangeRunes_cons x (xs ++ b)]
    rw [← List.cons_append, e, List.drop_append_of_le_length hle]
    rw [rangeRunes_append_of_valid n _ b _ hv]
    · rfl
    · simp only [List.length_drop, List.length_cons] at hn ⊢; omega

/-- A string none of whose runes is the error rune is valid UTF-8. -/
theorem valid_of_no_runeError : ∀ (n : Nat) (a : List Nat), a.length ≤ n →
    (∀ r ∈ rangeRunes a, r ≠ runeError) → ValidString a = true
  | _, [], _, _ => rfl
  | 0, x :: xs, hn, _ => by simp at hn
  | n + 1, x :: xs, hn, h => by
    have hw := (nextRune_width (x :: xs)).1
    rw [rangeRunes_cons] at h
    rw [ValidString_cons]
    have h1 : (nextRune (x :: xs)).1 ≠ runeError := h _ (List.mem_cons_self _ _)
    rw [if_neg (fun c => h1 c.1)]
    apply valid_of_no_runeError n
    · simp only [List.length_drop, List.length_cons] at hn ⊢; omega
    · intro r hr
      exact h r (List.mem_cons_of_mem _ hr)

end Go

namespace isopsephy

open Go

theorem calculateLoop_ok : ∀ (rs : List Nat) (total : Int),
    (∀ r ∈ rs, letterValue r ≠ none) →
    calculateLoop rs total = (total + (rs.map tableValue).sum, none)
  | [], total, _ => by simp [calculateLoop]
  | r :: rs, total, h => by
    have hr : letterValue r ≠ none := h r (List.mem_cons_self _ _)
    obtain ⟨v, hv⟩ := Option.ne_none_iff_exists'.mp hr
    have ih := calculateLoop_ok rs (total + v) (fun x hx => h x (List.mem_cons_of_mem _ hx))
    simp only [calculateLoop, hv, ih, List.map_cons, List.sum_cons, tableValue, Option.getD_some]
    rw [add_assoc]

theorem calculateLoop_err : ∀ (rs : List Nat) (total : Int),
    (∃ r ∈ rs, letterValue r = none) →
    (calculateLoop rs total).1 = 0 ∧ (calculateLoop rs total).2 ≠ none
  | [], _, h => by simp at h
  | r :: rs, total, h => by
    cases hv : letterValue r with
    | none => simp [calculateLoop, hv]
    | some v =>
      have h2 : ∃ x ∈ rs, letterValue x = none := by
        obtain ⟨x, hx, hn⟩ := h
        rcases List.mem_cons.mp hx with e | hx
        · subst e; rw [hv] at hn; cases hn
        · exact ⟨x, hx, hn⟩
      simpa [calculateLoop, hv] using calculateLoop_err rs (total + v) h2

theorem calculateLoop_err_iff (rs : List Nat) (total : Int) :
    (calculateLoop rs total).2 ≠ none ↔ ∃ r ∈ rs, letterValue r = none := by
  constructor
  · intro h
    by_contra hc
    push_neg at hc
    rw [calculateLoop_ok rs total hc] at h
    exact h rfl
  · intro h
    exact (calculateLoop_err rs total h).2

theorem letterValue_runeError : letterValue runeError = none := by decide

theorem valid_of_Calculate_ok (a : List Nat) (h : (Calculate a).2 = none) :
    ValidString a = true := by
  apply valid_of_no_runeError a.length a (le_refl _)
  intro r hr e
  have : (Calculate a).2 ≠ none :=
    (calculateLoop_err_iff _ 0).mpr ⟨r, hr, by rw [e]; exact letterValue_runeError⟩
  exact this h

theorem Calculate_append_err (a b : List Nat) (ha : ValidString a = true)
    (h : (Calculate a).2 ≠ none ∨ (Calculate b).2 ≠ none) : (Calculate (a ++ b)).2 ≠ none := by
  unfold Calculate at h ⊢
  rw [rangeRunes_append_of_valid a.length a b (le_refl _) ha]
  rw [calculateLoop_err_iff] at h ⊢
  rw [calculateLoop_err_iff] at h
  rcases h with ⟨r, hr, hn⟩ | ⟨r, hr, hn⟩
  · exact ⟨r, List.mem_append_left _ hr, hn⟩
  · exact ⟨r, List.mem_append_right _ hr, hn⟩

theorem Calculate_of_recognised (word : List Nat)
    (h : ∀ r ∈ rangeRunes word, letterValue r ≠ none) :
    Calculate word = (((rangeRunes word).map tableValue).sum, none) := by
  unfold Calculate
  rw [calculateLoop_ok _ 0 h, zero_add]

theorem ite_some_bound (c : Prop) [Decidable c] (a : Int) (o : Option Int) (v : Int)
    (ha : 0 ≤ a ∧ a ≤ 900) (ho : o = some v → 0 ≤ v ∧ v ≤ 900)
    (h : (if c then some a else o) = some v) : 0 ≤ v ∧ v ≤ 900 := by
  by_cases hc : c
  · rw [if_pos hc] at h
    injection h with h
    subst h
    exact ha
  · rw [if_neg hc] at h
    exact ho h

/-- Every value of the table lies between 0 and 900. -/
theorem letterValue_le (r : Nat) (v : Int) (h : letterValue r = some v) : 0 ≤ v ∧ v ≤ 900 := by
  unfold letterValue at h
  repeat' (refine ite_some_bound _ _ _ v (by decide) ?_ h; clear h; intro h)
  cases h

theorem tableValue_le (r : Nat) : 0 ≤ tableValue r ∧ tableValue r ≤ 900 := by
  unfold tableValue
  cases h : letterValue r with
  | none => exact ⟨by decide, by decide⟩
  | some v => exact letterValue_le r v h

theorem rangeLoop_length : ∀ (f : Nat) (s : List Nat), (rangeLoop f s).length ≤ s.length
  | 0, _ => by simp [rangeLoop]
  | _ + 1, [] => by simp [rangeLoop]
  | f + 1, b :: bs => by
    have hw := (nextRune_width (b :: bs)).1
    have ih := rangeLoop_length f ((b :: bs).drop (nextRune (b :: bs)).2)
    simp only [rangeLoop, List.length_cons, List.length_drop] at ih ⊢
    omega

theorem sum_tableValue_le : ∀ (rs : List Nat),
    0 ≤ (rs.map tableValue).sum ∧ (rs.map tableValue).sum ≤ 900 * (rs.length : Int)
  | [] => by simp
  | r :: rs => by
    have h1 := tableValue_le r
    have h2 := sum_tableValue_le rs
    simp only [List.map_cons, List.sum_cons, List.length_cons, Nat.cast_add, Nat.cast_one]
    constructor <;> linarith [h1.1, h1.2, h2.1, h2.2]

/-- The number returned by `Calculate` lies between 0 and 900 times the length of the word, so
it stays within the Go type `int` for every word shorter than `2^63 / 900` bytes. -/
theorem Calculate_bounds (word : List Nat) :
    0 ≤ (Calculate word).1 ∧ (Calculate word).1 ≤ 900 * (word.length : Int) := by
  by_cases h : ∀ r ∈ rangeRunes word, letterValue r ≠ none
  · rw [Calculate_of_recognised word h]
    have h1 := sum_tableValue_le (rangeRunes word)
    have h2 : ((rangeRunes word).length : Int) ≤ (word.length : Int) := by
      exact_mod_cast rangeLoop_length word.length word
    constructor
    · exact h1.1
    · linarith [h1.2]
  · push_neg at h
    have := (calculateLoop_err (rangeRunes word) 0 h).1
    unfold Calculate
    rw [this]
    constructor
    · exact le_refl _
    · positivity

/-- C2. For every word all of whose runes are cases of the switch, `Calculate` returns a nil
error and the sum of the table values of its runes. -/
theorem Calculate_eq_sum (word : List Nat)
    (h : ∀ r ∈ rangeRunes word, letterValue r ≠ none) :
    Calculate word = (((rangeRunes word).map tableValue).sum, none) :=
  Calculate_of_recognised word h

/-- The two words of `TestCalculate` consist of recognised runes and have the numbers 993 and
1187; the space, the standalone signs and the combining marks count 0, the final sigma 6. -/
theorem Calculate_eq_sum_witness :
    (∀ r ∈ rangeRunes (bytes "Ἀφροδίτη"), letterValue r ≠ none) ∧
    Calculate (bytes "Ἀφροδίτη") = (993, none) ∧
    (∀ r ∈ rangeRunes (bytes "Ͷιχανους"), letterValue r ≠ none) ∧
    Calculate (bytes "Ͷιχανους") = (1187, none) ∧
    (∀ r ∈ [0x20, 0x1FCE, 0x1FDE, 0x1FFE, 0x1FCF, 0x1FBF, 0x1FDF, 0x301, 0x302, 0x304, 0x313,
      0x314, 0x342], letterValue r = some 0) ∧
    letterValue 0x3C2 = some 6 :=
  ⟨by decide,
   (Calculate_eq_sum (bytes "Ἀφροδίτη") (by decide)).trans (by decide),
   by decide,
   (Calculate_eq_sum (bytes "Ͷιχανους") (by decide)).trans (by decide),
   by decide, by decide⟩

/-- C3. `Calculate` returns a non-nil error exactly when some rune of the word is outside the
switch, and the number returned together with an error is 0. -/
theorem Calculate_error_iff (word : List Nat) :
    ((Calculate word).2 ≠ none ↔ ∃ r ∈ rangeRunes word, letterValue r = none) ∧
    ((Calculate word).2 ≠ none → (Calculate word).1 = 0) := by
  refine ⟨calculateLoop_err_iff _ 0, fun h => ?_⟩
  exact (calculateLoop_err _ 0 ((calculateLoop_err_iff _ 0).mp h)).1

/-- The Latin word "Freddy" of `TestCalculate` is rejected with number 0, and so is a word whose
bad character comes after recognised letters. -/
theorem Calculate_error_iff_witness :
    (Calculate (bytes "Freddy")).2 ≠ none ∧ (Calculate (bytes "Freddy")).1 = 0 ∧
    (Calculate (bytes "αβγd")).2 ≠ none ∧ (Calculate (bytes "αβγd")).1 = 0 :=
  ⟨by decide, (Calculate_error_iff (bytes "Freddy")).2 (by decide),
   by decide, (Calculate_error_iff (bytes "αβγd")).2 (by decide)⟩

/-- C10. `Calculate` is additive over concatenation: if it succeeds on `a` and on `b` it succeeds
on `a ++ b` with the sum of the two numbers; and if `a` and `b` are valid UTF-8 and it fails on
one of them, it fails on `a ++ b`. -/
theorem Calculate_append (a b : List Nat) :
    (∀ x y : Int, Calculate a = (x, none) → Calculate b = (y, none) →
      Calculate (a ++ b) = (x + y, none)) ∧
    (ValidString a = true → ValidString b = true →
      ((Calculate a).2 ≠ none ∨ (Calculate b).2 ≠ none) → (Calculate (a ++ b)).2 ≠ none) := by
  refine ⟨fun x y hx hy => ?_, fun ha _ h => Calculate_append_err a b ha h⟩
  have va : ValidString a = true := valid_of_Calculate_ok a (by rw [hx])
  have ra : ∀ r ∈ rangeRunes a, letterValue r ≠ none := by
    intro r hr hn
    exact (calculateLoop_err_iff _ 0).mpr ⟨r, hr, hn⟩ (by unfold Calculate at hx; rw [hx])
  have rb : ∀ r ∈ rangeRunes b, letterValue r ≠ none := by
    intro r hr hn
    exact (calculateLoop_err_iff _ 0).mpr ⟨r, hr, hn⟩ (by unfold Calculate at hy; rw [hy])
  have rab : ∀ r ∈ rangeRunes a ++ rangeRunes b, letterValue r ≠ none := by
    intro r hr
    rcases List.mem_append.mp hr with h | h
    · exact ra r h
    · exact rb r h
  have ea := Calculate_of_recognised a ra
  have eb := Calculate_of_recognised b rb
  rw [hx] at ea
  rw [hy] at eb
  have e1 : x = ((rangeRunes a).map tableValue).sum := congrArg Prod.fst ea
  have e2 : y = ((rangeRunes b).map tableValue).sum := congrArg Prod.fst eb
  unfold Calculate
  rw [rangeRunes_append_of_valid a.length a b (le_refl _) va, calculateLoop_ok _ 0 rab]
  rw [List.map_append, List.sum_append, zero_add, e1, e2]

/-- Additivity on "αβ" and "γ" (3 + 3 = 6), and failure of "Fα" from the failure of "F". -/
theorem Calculate_append_witness :
    Calculate (bytes "αβ" ++ bytes "γ") = (3 + 3, none) ∧
    (Calculate (bytes "F" ++ bytes "α")).2 ≠ none :=
  ⟨(Calculate_append (bytes "αβ") (bytes "γ")).1 3 3 (by decide) (by decide),
   (Calculate_append (bytes "F") (bytes "α")).2 (by decide) (by decide)
     (Or.inl (by decide))⟩

/-- Without UTF-8 validity the failure half of additivity is false: the two bytes of "α" fail
separately and succeed together. -/
theorem Calculate_split_alpha :
    (Calculate [0xCE]).2 ≠ none ∧ (Calculate [0xB1]).2 ≠ none ∧
    Calculate ([0xCE] ++ [0xB1]) = (1, none) := by decide

end isopsephy

namespace json

theorem dropWhile_isSpace_append (ws : List Nat) (c : Nat) (rest : List Nat)
    (hws : ws.all isSpace = true) (hc : isSpace c = false) :
    (ws ++ c :: rest).dropWhile isSpace = c :: rest := by
  induction ws with
  | nil => simp [List.dropWhile, hc]
  | cons w ws ih =>
    simp only [List.all_cons, Bool.and_eq_true] at hws
    simp [List.dropWhile, hws.1, ih hws.2]

theorem stepByte_reset_space (c : Nat) (hc : isSpace c = true) :
    scanner.reset.stepByte c = (scanner.reset, ScanCode.scanSkipSpace) := by
  simp [scanner.stepByte, scanner.reset, stateBeginValue, hc]

theorem readValueLoop_space (whole : List Nat) (c : Nat) (rest : List Nat) (k : Nat)
    (hc : isSpace c = true) :
    readValueLoop whole scanner.reset (c :: rest) k
      = readValueLoop whole scanner.reset rest (k + 1) := by
  rw [readValueLoop]
  simp only [stepByte_reset_space c hc]

theorem readValueLoop_bracket (whole ws tail : List Nat) (k : Nat)
    (hws : ws.all isSpace = true) :
    readValueLoop whole scanner.reset (ws ++ 0x5D :: tail) k
      = ReadResult.error (DecodeError.syntaxError ⟨0x5D, "looking for beginning of value"⟩) := by
  induction ws generalizing k with
  | nil => rfl
  | cons w ws ih =>
    simp only [List.all_cons, Bool.and_eq_true] at hws
    rw [List.cons_append, readValueLoop_space whole w _ k hws.1]
    exact ih (k + 1) hws.2

/-- After a comma, a closing bracket is a syntax error for `readValue`. -/
theorem readValue_bracket (ws tail : List Nat) (hws : ws.all isSpace = true) :
    readValue (ws ++ 0x5D :: tail)
      = ReadResult.error (DecodeError.syntaxError ⟨0x5D, "looking for beginning of value"⟩) :=
  readValueLoop_bracket _ ws tail 0 hws

theorem readValueLoop_shift (w w1 : List Nat) (d : Nat) : ∀ (xs : List Nat) (s : scanner)
    (k n : Nat), readValueLoop w s xs k = ReadResult.ok n →
    readValueLoop w1 s xs (k + d) = ReadResult.ok (n + d)
  | [], s, k, n, h => by
    rw [readValueLoop] at h ⊢
    split_ifs at h ⊢ with c1 c2 c3
    all_goals (injection h with h; subst h; rfl)
  | c :: rest, s, k, n, h => by
    rw [readValueLoop] at h ⊢
    cases hcode : (s.stepByte c).2 <;> simp only [hcode] at h ⊢
    case scanEnd => injection h with h; subst h; rfl
    case scanEndObject =>
      split_ifs at h ⊢ with c1
      · injection h with h; subst h; congr 1; omega
      · have := readValueLoop_shift w w1 d rest _ _ _ h
        rw [show k + d + 1 = k + 1 + d by omega]; exact this
    case scanEndArray =>
      split_ifs at h ⊢ with c1
      · injection h with h; subst h; congr 1; omega
      · have := readValueLoop_shift w w1 d rest _ _ _ h
        rw [show k + d + 1 = k + 1 + d by omega]; exact this
    case scanError =>
      cases he : (s.stepByte c).1.err <;> simp only [he] at h <;> cases h
    all_goals
      have := readValueLoop_shift w w1 d rest _ _ _ h
      rw [show k + d + 1 = k + 1 + d by omega]; exact this

/-- White space before a value is skipped by `readValue` and counted in its length. -/
theorem readValue_lead (ws text rest : List Nat) (hws : ws.all isSpace = true)
    (h : readValue (text ++ rest) = ReadResult.ok text.length) :
    readValue (ws ++ (text ++ rest)) = ReadResult.ok (ws.length + text.length) := by
  unfold readValue at h ⊢
  have key : ∀ (ws : List Nat) (k : Nat) (w : List Nat), ws.all isSpace = true →
      readValueLoop w scanner.reset (ws ++ (text ++ rest)) k
        = ReadResult.ok (text.length + (k + ws.length)) := by
    intro ws
    induction ws with
    | nil =>
      intro k w _
      have := readValueLoop_shift _ w k _ _ _ _ h
      simpa using this
    | cons c ws ih =>
      intro k w hws
      simp only [List.all_cons, Bool.and_eq_true] at hws
      rw [List.cons_append, readValueLoop_space w c _ k hws.1, ih (k + 1) w hws.2]
      simp only [List.length_cons]
      congr 1; omega
  rw [key ws 0 _ hws]
  congr 1; omega

theorem StepInside_of_inside (s : scanner) (code : ScanCode) (h1 : s.parseState ≠ [])
    (h2 : s.step ≠ Step.stateEndTop) (h3 : code ≠ ScanCode.scanEnd) : StepInside (s, code) :=
  ⟨h3, Or.inr (Or.inr ⟨h1, h2⟩)⟩

theorem StepInside_error (s : scanner) (c : Nat) (ctx : String) : StepInside (s.error c ctx) :=
  ⟨by simp [scanner.error], Or.inl rfl⟩

theorem StepInside_push (s : scanner) (c : Nat) (p : ParseState) (code : ScanCode)
    (h2 : s.step ≠ Step.stateEndTop) (h3 : code ≠ ScanCode.scanEnd) :
    StepInside (s.pushParseState c p code) := by
  unfold scanner.pushParseState
  simp only
  split_ifs
  · exact StepInside_of_inside _ _ (by simp) h2 h3
  · exact StepInside_error _ _ _

theorem StepInside_ite (p : Prop) [Decidable p] (a b : scanner × ScanCode)
    (ha : StepInside a) (hb : StepInside b) : StepInside (if p then a else b) := by
  by_cases h : p
  · rw [if_pos h]; exact ha
  · rw [if_neg h]; exact hb

theorem StepInside_pop (s : scanner) (code : ScanCode)
    (hc : code = ScanCode.scanEndObject ∨ code = ScanCode.scanEndArray) :
    StepInside (s.popParseState, code) := by
  have hne : code ≠ ScanCode.scanEnd := by rcases hc with h | h <;> rw [h] <;> decide
  unfold scanner.popParseState
  simp only
  by_cases h : s.parseState.tail.length = 0
  · rw [if_pos h]
    exact ⟨hne, Or.inr (Or.inl ⟨hc, List.length_eq_zero.mp h, rfl⟩)⟩
  · rw [if_neg h]
    exact StepInside_of_inside _ _ (fun hn => h (by simp only at hn; rw [hn]; rfl))
      (by simp) hne

theorem stateEndValue_inside (s : scanner) (c : Nat) (h : s.parseState ≠ []) :
    StepInside (stateEndValue s c) := by
  obtain ⟨step, endTop, ps, err⟩ := s
  cases ps with
  | nil => exact absurd rfl h
  | cons p rest =>
    cases p <;> simp only [stateEndValue] <;> (repeat' (with_reducible apply StepInside_ite)) <;> first
      | exact StepInside_error _ _ _
      | exact StepInside_pop _ _ (Or.inl rfl)
      | exact StepInside_pop _ _ (Or.inr rfl)
      | exact StepInside_of_inside _ _ (by simp) (by simp) (by decide)

theorem stateBeginValue_inside (s : scanner) (c : Nat) (h : s.inside) :
    StepInside (stateBeginValue s c) := by
  unfold stateBeginValue
  repeat' (with_reducible apply StepInside_ite)
  all_goals first
    | exact StepInside_error _ _ _
    | exact StepInside_push _ _ _ _ (by simp) (by decide)
    | exact StepInside_of_inside _ _ h.1 h.2 (by decide)
    | exact StepInside_of_inside _ _ h.1 (by simp) (by decide)

theorem stateBeginString_inside (s : scanner) (c : Nat) (h : s.inside) :
    StepInside (stateBeginString s c) := by
  unfold stateBeginString
  repeat' (with_reducible apply StepInside_ite)
  all_goals first
    | exact StepInside_error _ _ _
    | exact StepInside_of_inside _ _ h.1 h.2 (by decide)
    | exact StepInside_of_inside _ _ h.1 (by simp) (by decide)

theorem stepByte_inside (s : scanner) (c : Nat) (h : s.inside) : StepInside (s.stepByte c) := by
  have hev := stateEndValue_inside s c h.1
  have hbv := stateBeginValue_inside s c h
  have hbs := stateBeginString_inside s c h
  have hev2 := stateEndValue_inside
    { s with parseState := ParseState.parseObjectValue :: s.parseState.tail } c (by simp)
  unfold scanner.stepByte
  split
  case h_6 hs => exact absurd hs h.2
  case h_31 => exact ⟨by simp, Or.inl rfl⟩
  all_goals
    try simp only [stateBeginValueOrEmpty, stateBeginStringOrEmpty, stateInString,
      stateInStringEsc, stateInStringEscHex, state0, state1, stateNeg, stateDot, stateDot0,
      stateE, stateESign, stateE0, stateLiteral]
    repeat' (with_reducible apply StepInside_ite)
    all_goals first
      | exact hev
      | exact hbv
      | exact hbs
      | exact hev2
      | exact StepInside_error _ _ _
      | exact StepInside_of_inside _ _ h.1 h.2 (by decide)
      | exact StepInside_of_inside _ _ h.1 (by simp) (by decide)

theorem stateEndValue_empty (s : scanner) (h : s.parseState = []) :
    (stateEndValue s 0x20).2 = ScanCode.scanEnd := by
  unfold stateEndValue
  rw [h]
  rfl

theorem stateEndValue_space (s : scanner) (h : s.parseState ≠ []) :
    (stateEndValue s 0x20).2 = ScanCode.scanSkipSpace ∧ (stateEndValue s 0x20).1.inside := by
  obtain ⟨step, endTop, ps, err⟩ := s
  cases ps with
  | nil => exact absurd rfl h
  | cons p rest => exact ⟨rfl, by simp [stateEndValue, isSpace, scanner.inside]⟩

/-- Inside an object or an array the outcome of `readValue` does not depend on what follows the
value: the loop stops at the closing brace or bracket of the outermost level. -/
theorem readValueLoop_inside (w w1 : List Nat) : ∀ (xs : List Nat) (s : scanner) (k n : Nat),
    s.inside → readValueLoop w s xs k = ReadResult.ok n →
    ∀ rest, readValueLoop w1 s (xs ++ rest) k = ReadResult.ok n
  | [], s, k, n, hin, h => by
    intro rest
    rw [readValueLoop] at h
    rw [if_neg (stepByte_inside s 0x20 hin).1] at h
    split_ifs at h
  | c :: xs, s, k, n, hin, h => by
    intro rest
    have hs := stepByte_inside s c hin
    have hend : ∀ s1 : scanner, (s1.parseState = [] ∧ s1.step = Step.stateEndTop) ∨ s1.inside →
        (if (stateEndValue s1 0x20).2 = ScanCode.scanEnd then ReadResult.ok (k + 1)
          else readValueLoop w (stateEndValue s1 0x20).1 xs (k + 1)) = ReadResult.ok n →
        (if (stateEndValue s1 0x20).2 = ScanCode.scanEnd then ReadResult.ok (k + 1)
          else readValueLoop w1 (stateEndValue s1 0x20).1 (xs ++ rest) (k + 1))
          = ReadResult.ok n := by
      intro s1 hs1 h1
      rcases hs1 with ⟨he, _⟩ | hi
      · rw [if_pos (stateEndValue_empty s1 he)] at h1 ⊢
        exact h1
      · have hsp := stateEndValue_space s1 hi.1
        have hne : (stateEndValue s1 0x20).2 ≠ ScanCode.scanEnd := by rw [hsp.1]; decide
        rw [if_neg hne] at h1 ⊢
        exact readValueLoop_inside w w1 xs _ _ _ hsp.2 h1 rest
    rw [List.cons_append, readValueLoop]
    rw [readValueLoop] at h
    obtain ⟨h1, h2⟩ := hs
    cases hcode : (s.stepByte c).2 <;> simp only [hcode] at h h1 h2 ⊢
    case scanEnd => exact absurd rfl h1
    case scanEndObject =>
      apply hend _ _ h
      simpa using h2
    case scanEndArray =>
      apply hend _ _ h
      simpa using h2
    case scanError =>
      cases he : (s.stepByte c).1.err <;> simp only [he] at h <;> cases h
    all_goals
      refine readValueLoop_inside w w1 xs _ _ _ ?_ h rest
      simpa using h2

/-- A text that begins with a brace and that `readValue` accepts as one value is read in the
same way whatever follows it. -/
theorem readValue_object_append (t : List Nat) (n : Nat)
    (h : readValue (0x7B :: t) = ReadResult.ok n) (rest : List Nat) :
    readValue (0x7B :: t ++ rest) = ReadResult.ok n := by
  unfold readValue at h ⊢
  have hin : (scanner.reset.stepByte 0x7B).1.inside := by
    simp [scanner.inside, scanner.reset, scanner.stepByte, stateBeginValue, isSpace,
      scanner.pushParseState, maxNestingDepth]
  have hcode : (scanner.reset.stepByte 0x7B).2 = ScanCode.scanBeginObject := by
    simp [scanner.reset, scanner.stepByte, stateBeginValue, isSpace,
      scanner.pushParseState, maxNestingDepth]
  rw [List.cons_append, readValueLoop]
  rw [readValueLoop] at h
  simp only [hcode] at h ⊢
  exact readValueLoop_inside _ _ t _ _ _ hin h rest

theorem More_skip (ws : List Nat) (c : Nat) (rest : List Nat) (err : Option DecodeError)
    (ts : TokenState) (stack : List TokenState)
    (hws : ws.all isSpace = true) (hc : isSpace c = false) :
    Decoder.More ⟨ws ++ c :: rest, err, ts, stack⟩
      = (⟨c :: rest, err, ts, stack⟩, (c ≠ 0x5D && c ≠ 0x7D)) := by
  simp only [Decoder.More, Decoder.peek, dropWhile_isSpace_append ws c rest hws hc]

theorem Decode_sticky {α : Type} (unm : List Nat → Except UnmarshalTypeError α)
    (buf : List Nat) (e : DecodeError) (ts : TokenState) (stack : List TokenState) :
    Decoder.Decode unm ⟨buf, some e, ts, stack⟩ = (⟨buf, some e, ts, stack⟩, Except.error e) :=
  rfl

theorem Decode_comma_ok {α : Type} (unm : List Nat → Except UnmarshalTypeError α)
    (buf : List Nat) (stack : List TokenState) (n : Nat) (r : α)
    (hr : readValue buf = ReadResult.ok n) (hu : unm (buf.take n) = Except.ok r) :
    Decoder.Decode unm ⟨0x2C :: buf, none, TokenState.tokenArrayComma, stack⟩
      = (⟨buf.drop n, none, TokenState.tokenArrayComma, stack⟩, Except.ok r) := by
  simp [Decoder.Decode, Decoder.tokenPrepareForDecode, Decoder.peek, List.dropWhile, isSpace,
    Decoder.tokenValueAllowed, hr, hu, Decoder.tokenValueEnd]

theorem Decode_comma_err {α : Type} (unm : List Nat → Except UnmarshalTypeError α)
    (buf : List Nat) (stack : List TokenState) (e : DecodeError)
    (hr : readValue buf = ReadResult.error e) :
    Decoder.Decode unm ⟨0x2C :: buf, none, TokenState.tokenArrayComma, stack⟩
      = (⟨buf, some e, TokenState.tokenArrayValue, stack⟩, Except.error e) := by
  simp [Decoder.Decode, Decoder.tokenPrepareForDecode, Decoder.peek, List.dropWhile, isSpace,
    Decoder.tokenValueAllowed, hr]

theorem Decode_start_ok {α : Type} (unm : List Nat → Except UnmarshalTypeError α)
    (buf : List Nat) (stack : List TokenState) (n : Nat) (r : α)
    (hr : readValue buf = ReadResult.ok n) (hu : unm (buf.take n) = Except.ok r) :
    Decoder.Decode unm ⟨buf, none, TokenState.tokenArrayStart, stack⟩
      = (⟨buf.drop n, none, TokenState.tokenArrayComma, stack⟩, Except.ok r) := by
  simp [Decoder.Decode, Decoder.tokenPrepareForDecode,
    Decoder.tokenValueAllowed, hr, hu, Decoder.tokenValueEnd]

theorem Decode_start_err {α : Type} (unm : List Nat → Except UnmarshalTypeError α)
    (buf : List Nat) (stack : List TokenState) (e : DecodeError)
    (hr : readValue buf = ReadResult.error e) :
    Decoder.Decode unm ⟨buf, none, TokenState.tokenArrayStart, stack⟩
      = (⟨buf, some e, TokenState.tokenArrayStart, stack⟩, Except.error e) := by
  simp [Decoder.Decode, Decoder.tokenPrepareForDecode, Decoder.tokenValueAllowed, hr]

theorem Token_bracket (lead rest : List Nat) (hlead : lead.all isSpace = true) :
    (NewDecoder (lead ++ 0x5B :: rest)).Token
      = (⟨rest, none, TokenState.tokenArrayStart, [TokenState.tokenTopValue]⟩,
          Except.ok (Token.Delim 0x5B)) := by
  simp [Decoder.Token, NewDecoder, Decoder.peek,
    dropWhile_isSpace_append lead 0x5B rest hlead (by decide)]

end json

namespace lgpn

open json

theorem decodeLoop_done (unm : List Nat → Except UnmarshalTypeError nameRow) (fuel : Nat)
    (dec : Decoder) (h : dec.More.2 = false) :
    decodeLoop unm (fuel + 1) dec = ⟨[], true, []⟩ := by
  rw [decodeLoop]
  cases hm : dec.More with
  | mk d b =>
    rw [hm] at h
    simp only at h
    subst h
    rfl

theorem decodeLoop_row (unm : List Nat → Except UnmarshalTypeError nameRow) (fuel : Nat)
    (dec d1 d2 : Decoder) (row : nameRow) (hm : dec.More = (d1, true))
    (hd : d1.Decode unm = (d2, Except.ok row)) :
    decodeLoop unm (fuel + 1) dec
      = ⟨row :: (decodeLoop unm fuel d2).rows, (decodeLoop unm fuel d2).closed,
          (decodeLoop unm fuel d2).stderr⟩ := by
  rw [decodeLoop]
  simp only [hm, hd]

theorem decodeLoop_continue (unm : List Nat → Except UnmarshalTypeError nameRow) (fuel : Nat)
    (dec d1 d2 : Decoder) (e : DecodeError) (hm : dec.More = (d1, true))
    (hd : d1.Decode unm = (d2, Except.error e)) (he : mentionsInvalidBracket e = true) :
    decodeLoop unm (fuel + 1) dec = decodeLoop unm fuel d2 := by
  rw [decodeLoop]
  simp only [hm, hd, he, if_true]

theorem arrayBody_cons_read (unm : List Nat → Except UnmarshalTypeError nameRow)
    (e : List Nat × List Nat × List Nat) (r : nameRow) (he : IsNameObject unm e r)
    (rest : List Nat) :
    readValue (e.1 ++ e.2.1 ++ rest) = ReadResult.ok (e.1.length + e.2.1.length) ∧
    (e.1 ++ e.2.1 ++ rest).take (e.1.length + e.2.1.length) = e.1 ++ e.2.1 ∧
    (e.1 ++ e.2.1 ++ rest).drop (e.1.length + e.2.1.length) = rest := by
  obtain ⟨h1, _, ⟨t, ht⟩, h4, _⟩ := he
  refine ⟨?_, ?_, ?_⟩
  · rw [List.append_assoc]
    refine readValue_lead e.1 e.2.1 rest h1 ?_
    rw [ht] at h4 ⊢
    exact readValue_object_append t _ h4 rest
  · rw [← List.length_append, List.take_left']
    rfl
  · rw [← List.length_append, List.drop_left']
    rfl

/-- The loop from the state reached after an element: the remaining elements are decoded in
order, the error after the last comma is skipped, and the closing bracket ends the loop. -/
theorem decodeLoop_after_element (unm : List Nat → Except UnmarshalTypeError nameRow)
    (gap tail : List Nat) (hgap : gap.all isSpace = true) :
    ∀ (es : List (List Nat × List Nat × List Nat)) (rs : List nameRow),
      List.Forall₂ (IsNameObject unm) es rs →
    ∀ (trail : List Nat) (stack : List TokenState) (k : Nat), trail.all isSpace = true →
      decodeLoop unm (es.length + 2 + k)
        ⟨trail ++ 0x2C :: arrayBody es (gap ++ 0x5D :: tail), none,
          TokenState.tokenArrayComma, stack⟩ = ⟨rs, true, []⟩ := by
  intro es rs hall
  induction hall with
  | nil =>
    intro trail stack k htrail
    have hm := More_skip trail 0x2C (gap ++ 0x5D :: tail) none TokenState.tokenArrayComma stack
      htrail (by decide)
    have hd := Decode_comma_err unm (gap ++ 0x5D :: tail) stack _ (readValue_bracket gap tail hgap)
    have hm2 := More_skip gap 0x5D tail (some (DecodeError.syntaxError
      ⟨0x5D, "looking for beginning of value"⟩)) TokenState.tokenArrayValue stack hgap (by decide)
    rw [show [].length + 2 + k = (k + 1) + 1 by simp; omega]
    rw [arrayBody, decodeLoop_continue unm (k + 1) _ _ _ _ hm hd rfl]
    exact decodeLoop_done unm k _ (by rw [hm2]; rfl)
  | @cons e r es rs he _ ih =>
    intro trail stack k htrail
    have hm := More_skip trail 0x2C (arrayBody (e :: es) (gap ++ 0x5D :: tail)) none
      TokenState.tokenArrayComma stack htrail (by decide)
    obtain ⟨hr, ht, hdr⟩ := arrayBody_cons_read unm e r he
      (e.2.2 ++ 0x2C :: arrayBody es (gap ++ 0x5D :: tail))
    have hb : arrayBody (e :: es) (gap ++ 0x5D :: tail)
        = e.1 ++ e.2.1 ++ (e.2.2 ++ 0x2C :: arrayBody es (gap ++ 0x5D :: tail)) := by
      simp [arrayBody]
    have hu : unm ((e.1 ++ e.2.1 ++ (e.2.2 ++ 0x2C :: arrayBody es (gap ++ 0x5D :: tail))).take
        (e.1.length + e.2.1.length)) = Except.ok r := by
      rw [ht]; exact he.2.2.2.2 e.1 he.1
    have hd := Decode_comma_ok unm _ stack _ r hr hu
    rw [hdr] at hd
    rw [hb] at hm
    rw [show (e :: es).length + 2 + k = (es.length + 2 + k) + 1 by simp; omega]
    rw [hb, decodeLoop_row unm _ _ _ _ r hm hd, ih e.2.2 stack k he.2.1]

/-- The loop from the state reached after the opening bracket. -/
theorem decodeLoop_array (unm : List Nat → Except UnmarshalTypeError nameRow)
    (gap tail : List Nat) (hgap : gap.all isSpace = true)
    (es : List (List Nat × List Nat × List Nat)) (rs : List nameRow)
    (hall : List.Forall₂ (IsNameObject unm) es rs) (stack : List TokenState) (k : Nat) :
    decodeLoop unm (es.length + 2 + k)
      ⟨arrayBody es (gap ++ 0x5D :: tail), none, TokenState.tokenArrayStart, stack⟩
      = ⟨rs, true, []⟩ := by
  cases hall with
  | nil =>
    have hm := More_skip gap 0x5D tail none TokenState.tokenArrayStart stack hgap (by decide)
    rw [show [].length + 2 + k = (k + 1) + 1 by simp; omega, arrayBody]
    exact decodeLoop_done unm (k + 1) _ (by rw [hm]; rfl)
  | @cons e r es rs he hrest =>
    obtain ⟨rest0, hrest0⟩ := he.2.2.1
    obtain ⟨hr, ht, hdr⟩ := arrayBody_cons_read unm ([], e.2.1, e.2.2) r
      ⟨rfl, he.2.1, he.2.2.1, he.2.2.2.1, he.2.2.2.2⟩
      (e.2.2 ++ 0x2C :: arrayBody es (gap ++ 0x5D :: tail))
    simp only [List.nil_append, List.length_nil, Nat.zero_add] at hr ht hdr
    have hb : arrayBody (e :: es) (gap ++ 0x5D :: tail)
        = e.1 ++ 0x7B :: (rest0 ++ (e.2.2 ++ 0x2C :: arrayBody es (gap ++ 0x5D :: tail))) := by
      simp [arrayBody, hrest0]
    have hm := More_skip e.1 0x7B (rest0 ++ (e.2.2 ++ 0x2C :: arrayBody es (gap ++ 0x5D :: tail)))
      none TokenState.tokenArrayStart stack he.1 (by decide)
    have hu : unm ((e.2.1 ++ (e.2.2 ++ 0x2C :: arrayBody es (gap ++ 0x5D :: tail))).take
        e.2.1.length) = Except.ok r := by
      rw [ht]; exact he.2.2.2.2 [] rfl
    have hd := Decode_start_ok unm _ stack _ r hr hu
    rw [hdr, hrest0] at hd
    rw [show (e :: es).length + 2 + k = (es.length + 2 + k) + 1 by simp; omega]
    rw [hb, decodeLoop_row unm _ _ _ _ r hm hd,
      decodeLoop_after_element unm gap tail hgap es rs hrest e.2.2 stack k he.2.1]

theorem unmarshal_lead (ws text : List Nat) (c : Nat) (rest : List Nat)
    (hws : ws.all isSpace = true) (ht : text = c :: rest) (hc : isSpace c = false) :
    unmarshal (ws ++ text) = unmarshal text := by
  subst ht
  unfold unmarshal
  rw [dropWhile_isSpace_append ws c rest hws hc]
  have : (c :: rest).dropWhile isSpace = c :: rest := by simp [List.dropWhile, hc]
  rw [this]

theorem objectA_isNameObject : IsNameObject unmarshal ([], objectA, []) rowA := by
  refine ⟨rfl, rfl, ⟨_, rfl⟩, by decide, ?_⟩
  · intro ws hws
    rw [unmarshal_lead ws objectA _ _ hws rfl (by decide)]
    rfl

/-- For the decoder of `nameRow` the conditions on an element are three computations: the text
begins with a brace, `readValue` accepts it whole, and `unmarshal` yields the row. -/
theorem isNameObject_unmarshal (lead trail t : List Nat) (r : nameRow)
    (hlead : lead.all isSpace = true) (htrail : trail.all isSpace = true)
    (hr : readValue (0x7B :: t) = ReadResult.ok (0x7B :: t).length)
    (hu : unmarshal (0x7B :: t) = Except.ok r) :
    IsNameObject unmarshal (lead, 0x7B :: t, trail) r := by
  refine ⟨hlead, htrail, ⟨t, rfl⟩, hr, ?_⟩
  intro ws hws
  rw [unmarshal_lead ws _ 0x7B t hws rfl (by decide)]
  exact hu

/-- A payload in the layout of the LGPN answer, one object per line with Greek names, decodes
to its two records. -/
theorem decodeBody_greek :
    decodeBody unmarshal 4 (Go.bytes ("[\n\x7b\"name\":\"Ἀφροδίτη\",\"notBefore\":\"-0100\","
      ++ "\"notAfter\":\"0100\"\x7d,\n\x7b\"name\":\"Ͷιχανους\",\"notBefore\":\"0001\","
      ++ "\"notAfter\":\"0200\"\x7d,\n]\n"))
      = ⟨[⟨Go.bytes "Ἀφροδίτη", Go.bytes "-0100", Go.bytes "0100"⟩,
          ⟨Go.bytes "Ͷιχανους", Go.bytes "0001", Go.bytes "0200"⟩], true, []⟩ := by
  decide

/-- A comma that follows no element is not skipped: on `[,]` the error names the comma, so it is
written to standard error and the channel is closed without a row. -/
theorem decodeBody_lone_comma :
    decodeBody unmarshal 2 (Go.bytes "[,]")
      = ⟨[], true, [LogLine.jsonError (DecodeError.syntaxError
          ⟨0x2C, "looking for beginning of value"⟩)]⟩ := by
  decide

/-- Once a sticky error mentions the closing bracket and `More` still reports an element, every
further iteration repeats the same failing `Decode`: the loop sends nothing and never reaches
`close(names)`. -/
theorem decodeLoop_spins (unm : List Nat → Except UnmarshalTypeError nameRow)
    (c : Nat) (rest : List Nat) (e : DecodeError) (ts : TokenState) (stack : List TokenState)
    (hc : isSpace c = false) (hc1 : c ≠ 0x5D) (hc2 : c ≠ 0x7D)
    (he : mentionsInvalidBracket e = true) :
    ∀ fuel, decodeLoop unm fuel ⟨c :: rest, some e, ts, stack⟩ = ⟨[], false, []⟩
  | 0 => rfl
  | fuel + 1 => by
    have hm := More_skip [] c rest (some e) ts stack rfl hc
    simp only [List.nil_append] at hm
    have hb : (c ≠ 0x5D && c ≠ 0x7D) = true := by simp [hc1, hc2]
    rw [hb] at hm
    rw [decodeLoop_continue unm fuel _ _ _ e hm (Decode_sticky unm _ e ts stack) he]
    exact decodeLoop_spins unm c rest e ts stack hc hc1 hc2 he fuel

/-- If the loop reaches `close(names)` within a budget, a larger budget changes nothing. -/
theorem decodeLoop_mono (unm : List Nat → Except UnmarshalTypeError nameRow) :
    ∀ (f g : Nat) (dec : Decoder), f ≤ g → (decodeLoop unm f dec).closed = true →
      decodeLoop unm g dec = decodeLoop unm f dec
  | 0, _, _, _, h => by simp [decodeLoop] at h
  | f + 1, 0, _, hfg, _ => by omega
  | f + 1, g + 1, dec, hfg, h => by
    rw [decodeLoop] at h ⊢
    rw [decodeLoop]
    cases hm : dec.More with
    | mk d1 b =>
      cases b with
      | false => rfl
      | true =>
        simp only [hm] at h ⊢
        cases hd : d1.Decode unm with
        | mk d2 res =>
          cases res with
          | error e =>
            simp only [hd] at h ⊢
            split_ifs at h ⊢ with c1
            · exact decodeLoop_mono unm f g d2 (by omega) h
            · rfl
          | ok row =>
            simp only [hd] at h ⊢
            rw [decodeLoop_mono unm f g d2 (by omega) h]

theorem populateLoop_ok (aff : List Nat → SqlValue) : ∀ (rows : List nameRow) (i : Nat) (tx : Tx),
    cache.populateLoop aff none rows i tx
      = (⟨rows.foldl (Store.insert aff) tx.pending, tx.done⟩, rows.map Event.insert, none)
  | [], _, _ => rfl
  | row :: rest, i, tx => by
    rw [cache.populateLoop]
    simp only [populateLoop_ok aff rest (i + 1) (tx.Exec aff row), reduceCtorEq, if_false]
    rfl

/-- The inserts append, in order, one stored row per row sent: the name as sent and the two
dates as the `INTEGER` columns convert them. -/
theorem foldl_insert_rows (aff : List Nat → SqlValue) : ∀ (rows : List nameRow) (st : Store),
    (rows.foldl (Store.insert aff) st).rows.map StoredRow.columns
      = st.rows.map StoredRow.columns ++ rows.map (nameRow.columns aff)
  | [], st => by simp
  | row :: rest, st => by
    rw [List.foldl_cons, foldl_insert_rows aff rest (Store.insert aff st row)]
    simp [Store.insert, StoredRow.columns, nameRow.columns]

theorem foldl_insert_names (aff : List Nat → SqlValue) (rows : List nameRow) (st : Store) :
    (rows.foldl (Store.insert aff) st).rows.map (fun r => r.name)
      = st.rows.map (fun r => r.name) ++ rows.map (fun r => r.Name) := by
  have h := congrArg (List.map (fun c : List Nat × SqlValue × SqlValue => c.1))
    (foldl_insert_rows aff rows st)
  simpa [List.map_map, Function.comp_def, StoredRow.columns, nameRow.columns] using h

/-- A cold call in a healthy environment whose download closes after the rows `rows`. -/
theorem Names_cold (unm : List Nat → Except UnmarshalTypeError nameRow) (fuel : Nat)
    (aff : List Nat → SqlValue)
    (body : List Nat) (st : Store) (rows : List nameRow) (log : List LogLine)
    (hst : st.rows = []) (hd : decodeBody unm fuel body = ⟨rows, true, log⟩) :
    client.Names unm fuel (Env.serving aff (some ⟨200, body⟩)) st
      = some ⟨rows.foldl (Store.insert aff) st, coldTrace rows,
          Except.ok (rows.map (fun r => r.Name))⟩ := by
  have hn : (rows.foldl (Store.insert aff) st).rows.map (fun r => r.name)
      = rows.map (fun r => r.Name) := by
    rw [foldl_insert_names, hst]; rfl
  simp [client.Names, newCache, client.namesBody, Env.serving, cache.Count, hst,
    client.downloadNames, hd, cache.Populate, populateLoop_ok, Tx.Commit, Tx.Rollback,
    client.finish, cache.Names, hn, coldTrace]

/-- A cold call in a healthy environment whose download never closes does not return. -/
theorem Names_cold_open (unm : List Nat → Except UnmarshalTypeError nameRow) (fuel : Nat)
    (aff : List Nat → SqlValue)
    (body : List Nat) (st : Store) (rows : List nameRow) (log : List LogLine)
    (hst : st.rows = []) (hd : decodeBody unm fuel body = ⟨rows, false, log⟩) :
    client.Names unm fuel (Env.serving aff (some ⟨200, body⟩)) st = none := by
  simp [client.Names, newCache, client.namesBody, Env.serving, cache.Count, hst,
    client.downloadNames, hd, cache.Populate, populateLoop_ok]

/-- A warm call in an environment whose database works. -/
theorem Names_warm (unm : List Nat → Except UnmarshalTypeError nameRow) (fuel : Nat)
    (aff : List Nat → SqlValue)
    (resp : Option Response) (st : Store) (hst : st.rows ≠ []) :
    client.Names unm fuel (Env.serving aff resp) st
      = some ⟨st, [Event.dbOpen, Event.countQuery, Event.namesQuery, Event.dbClose],
          Except.ok (st.rows.map (fun r => r.name))⟩ := by
  simp [client.Names, newCache, client.namesBody, Env.serving, cache.Count, hst, client.finish,
    cache.Names]

theorem Rollback_db (db : Store) (tx : Tx) : (tx.Rollback db).1 = db := by
  unfold Tx.Rollback
  split_ifs <;> rfl

theorem Commit_failed_db (cf : Bool) (db : Store) (tx : Tx) (db1 : Store) (tx1 : Tx)
    (h : tx.Commit cf db = (db1, tx1, true)) : db1 = db := by
  unfold Tx.Commit at h
  split_ifs at h <;> simp only [Prod.mk.injEq] at h
  · exact h.1.symm
  · exact h.1.symm
  · exact absurd h.2.2 (by decide)

/-- Every error return of `cache.Populate` leaves the database as it was. -/
theorem Populate_error_db (env : Env) (st : Store) (rows : RowStream) (st1 : Store)
    (tr : List Event) (e : PopulateError)
    (h : cache.Populate env st rows = some (st1, tr, some e)) : st1 = st := by
  unfold cache.Populate at h
  rcases hloop : cache.populateLoop env.affinity env.insertFails rows.rows 0 ⟨st, false⟩
    with ⟨tx1, tr1, _ | row⟩
  · rcases hc : tx1.Commit env.commitFails st with ⟨db, tx2, _ | _⟩
    · simp only [hloop, hc] at h
      split_ifs at h <;> simp only [Option.some.injEq, Prod.mk.injEq, reduceCtorEq,
        and_false] at h
      · exact h.1.symm
      · rw [← h.1, Rollback_db]
    · simp only [hloop, hc] at h
      split_ifs at h <;> simp only [Option.some.injEq, Prod.mk.injEq, reduceCtorEq,
        and_false] at h
      · exact h.1.symm
      · rw [← h.1, Rollback_db]
      · rw [← h.1, Rollback_db]
        exact Commit_failed_db _ _ _ _ _ hc
  · simp only [hloop] at h
    split_ifs at h <;> simp only [Option.some.injEq, Prod.mk.injEq] at h
    · exact h.1.symm
    · rw [← h.1, Rollback_db]
    · rw [← h.1, Rollback_db]

theorem finish_store (env : Env) (st : Store) (pre : List Event) :
    (client.finish env st pre).store = st ∧
    (client.finish env st pre).trace = pre ++ [Event.namesQuery] ∧
    (∀ e, (client.finish env st pre).result = Except.error e → e = Error.queryNames) := by
  unfold client.finish
  cases cache.Names env st <;> simp

theorem newCache_ok (env : Env) (tr : List Event) (h : newCache env = (tr, none)) :
    tr = [Event.dbOpen] := by
  unfold newCache at h
  split_ifs at h <;> simp only [Prod.mk.injEq, reduceCtorEq, and_false, and_true] at h
  exact h.symm

theorem namesBody_error_store (unm : List Nat → Except UnmarshalTypeError nameRow) (fuel : Nat)
    (env : Env) (st : Store) (r : NamesResult) (e : Error)
    (h : client.namesBody unm fuel env st = some r) (he : r.result = Except.error e)
    (hq : e ≠ Error.queryNames) : r.store = st := by
  unfold client.namesBody at h
  split at h
  · injection h with h; subst h; rfl
  · split_ifs at h with c3
    · split at h
      · injection h with h; subst h; rfl
      · split at h
        · cases h
        · rename_i hp
          injection h with h; subst h
          exact Populate_error_db _ _ _ _ _ _ hp
        · injection h with h; subst h
          exact absurd ((finish_store _ _ _).2.2 e he) hq
    · injection h with h; subst h
      exact absurd ((finish_store _ _ _).2.2 e he) hq

theorem Names_error_store (unm : List Nat → Except UnmarshalTypeError nameRow) (fuel : Nat)
    (env : Env) (st : Store) (r : NamesResult) (e : Error)
    (h : client.Names unm fuel env st = some r) (he : r.result = Except.error e)
    (hq : e ≠ Error.queryNames) : r.store = st := by
  unfold client.Names at h
  rcases hn : newCache env with ⟨tr, _ | e0⟩
  · rcases hb : client.namesBody unm fuel env st with _ | rb
    · simp only [hn, hb, reduceCtorEq] at h
    · simp only [hn, hb, Option.some.injEq] at h
      subst h
      exact namesBody_error_store unm fuel env st rb e hb he hq
  · simp only [hn, Option.some.injEq] at h
    subst h
    rfl

theorem populateLoop_events (aff : List Nat → SqlValue) (ins : Option Nat) :
    ∀ (rows : List nameRow) (i : Nat) (tx : Tx),
    ∀ ev ∈ (cache.populateLoop aff ins rows i tx).2.1, ∃ row, ev = Event.insert row
  | [], _, _ => by simp [cache.populateLoop]
  | row :: rest, i, tx => by
    intro ev hev
    rw [cache.populateLoop] at hev
    split_ifs at hev with c
    · simp at hev
    · rcases List.mem_cons.mp hev with h | h
      · exact ⟨row, h⟩
      · exact populateLoop_events aff ins rest (i + 1) (tx.Exec aff row) ev h

theorem Populate_ok_events (env : Env) (st : Store) (rows : RowStream) (st1 : Store)
    (tr : List Event) (h : cache.Populate env st rows = some (st1, tr, none)) :
    Event.dbClose ∉ tr ∧ Event.dbOpen ∉ tr := by
  unfold cache.Populate at h
  have hev := populateLoop_events env.affinity env.insertFails rows.rows 0 ⟨st, false⟩
  rcases hloop : cache.populateLoop env.affinity env.insertFails rows.rows 0 ⟨st, false⟩
    with ⟨tx1, tr1, _ | row⟩
  · rw [hloop] at hev
    simp only at hev
    have hno : Event.dbClose ∉ tr1 ∧ Event.dbOpen ∉ tr1 := by
      constructor
      · intro hm
        obtain ⟨row, hrow⟩ := hev _ hm
        cases hrow
      · intro hm
        obtain ⟨row, hrow⟩ := hev _ hm
        cases hrow
    rcases hc : tx1.Commit env.commitFails st with ⟨db, tx2, _ | _⟩
    · simp only [hloop, hc] at h
      split_ifs at h <;> simp only [Option.some.injEq, Prod.mk.injEq, reduceCtorEq,
        and_false] at h
      rw [← h.2.1]
      simp [hno.1, hno.2]
    · simp only [hloop, hc] at h
      split_ifs at h <;> simp only [Option.some.injEq, Prod.mk.injEq, reduceCtorEq,
        and_false] at h
  · simp only [hloop] at h
    split_ifs at h <;> simp only [Option.some.injEq, Prod.mk.injEq, reduceCtorEq,
        and_false] at h

theorem decodeBody_bad_token (unm : List Nat → Except UnmarshalTypeError nameRow) (fuel : Nat)
    (body : List Nat) (htok : ((NewDecoder body).Token).2 ≠ Except.ok (Token.Delim 0x5B)) :
    ∃ l, decodeBody unm fuel body = ⟨[], true, [l]⟩ := by
  unfold decodeBody
  rcases ht : (NewDecoder body).Token with ⟨dec, _ | first⟩
  · exact ⟨_, rfl⟩
  · rw [ht] at htok
    have hne : first ≠ Token.Delim 0x5B := fun hc => htok (by rw [hc])
    simp only [hne, ne_eq, not_false_eq_true, if_true]
    exact ⟨_, rfl⟩

/-- C1 (amended). From an empty store and a fixed payload whose download closes after the rows
`rows`, the first call of `Names` delivers the names of `rows` in order.  If `rows` is not empty,
a second call delivers the same names whatever the server then answers, and sends no request.
If `rows` is empty, the store is still empty and a second call against the same payload sends
the request again and delivers the same empty list. -/
theorem Names_twice (unm : List Nat → Except UnmarshalTypeError nameRow) (fuel fuel2 : Nat)
    (aff : List Nat → SqlValue)
    (body : List Nat) (resp2 : Option Response) (st : Store) (rows : List nameRow)
    (log : List LogLine) (hst : st.rows = [])
    (hd : decodeBody unm fuel body = ⟨rows, true, log⟩) :
    ∃ r1, client.Names unm fuel (Env.serving aff (some ⟨200, body⟩)) st = some r1 ∧
      r1.result = Except.ok (rows.map (fun r => r.Name)) ∧
      (rows ≠ [] → ∃ r2, client.Names unm fuel2 (Env.serving aff resp2) r1.store = some r2 ∧
        r2.result = r1.result ∧ Event.httpGet ∉ r2.trace) ∧
      (rows = [] → ∃ r2, client.Names unm fuel (Env.serving aff (some ⟨200, body⟩)) r1.store
          = some r2 ∧ r2.result = r1.result ∧ Event.httpGet ∈ r2.trace) := by
  have hn : (rows.foldl (Store.insert aff) st).rows.map (fun r => r.name)
      = rows.map (fun r => r.Name) := by
    rw [foldl_insert_names, hst]; rfl
  have hwarm : rows ≠ [] → (rows.foldl (Store.insert aff) st).rows ≠ [] := by
    intro hr hc
    have := congrArg List.length hn
    rw [hc] at this
    simp only [List.map_nil, List.length_nil, List.length_map] at this
    exact hr (List.length_eq_zero.mp this.symm)
  refine ⟨_, Names_cold unm fuel aff body st rows log hst hd, rfl, ?_, ?_⟩
  · intro hr
    refine ⟨_, Names_warm unm fuel2 aff resp2 _ (hwarm hr), ?_, ?_⟩
    · simp only [hn]
    · simp
  · intro hr
    subst hr
    exact ⟨_, Names_cold unm fuel aff body st [] log hst hd, rfl, by simp [coldTrace]⟩

/-- Two calls on the payload of the trailing-comma property: both deliver the name "A" and the
second does so with the server gone. -/
theorem Names_twice_witness :
    ∃ r1, client.Names unmarshal 3
        (Env.serving (integerAffinity SqlValue.text) (some ⟨200, payloadA⟩)) ⟨[], 0⟩ = some r1 ∧
      r1.result = Except.ok [Go.bytes "A"] ∧
      ∃ r2, client.Names unmarshal 0 (Env.serving (integerAffinity SqlValue.text) none) r1.store
          = some r2 ∧
        r2.result = r1.result ∧ Event.httpGet ∉ r2.trace := by
  obtain ⟨r1, h1, h2, h3, _⟩ :=
    Names_twice unmarshal 3 0 (integerAffinity SqlValue.text) payloadA none ⟨[], 0⟩ [rowA] []
      rfl rfl
  exact ⟨r1, h1, h2, h3 (by decide)⟩

/-- C1 as stated fails on the payload `[]`: the store is still empty after the first call, so
the second call sends a request again. -/
theorem Names_twice_refetches_empty_payload :
    ∃ r1 r2, client.Names unmarshal 1
        (Env.serving (integerAffinity SqlValue.text) (some ⟨200, Go.bytes "[]"⟩)) ⟨[], 0⟩
        = some r1 ∧
      client.Names unmarshal 1
        (Env.serving (integerAffinity SqlValue.text) (some ⟨200, Go.bytes "[]"⟩)) r1.store
        = some r2 ∧
      Event.httpGet ∈ r2.trace :=
  ⟨⟨⟨[], 0⟩, coldTrace [], Except.ok []⟩, ⟨⟨[], 0⟩, coldTrace [], Except.ok []⟩, rfl, rfl,
    by decide⟩

/-- From an empty store, a cold call whose download delivers the rows `rows` and closes stores
one row per record in this order, the name as sent and the two dates as the `INTEGER` columns
convert them, and every later read of the store delivers exactly the names in this order. -/
theorem Names_preserves_order (unm : List Nat → Except UnmarshalTypeError nameRow) (fuel : Nat)
    (aff : List Nat → SqlValue)
    (body : List Nat) (st : Store) (rows : List nameRow) (log : List LogLine)
    (hst : st.rows = []) (hd : decodeBody unm fuel body = ⟨rows, true, log⟩) :
    ∃ r, client.Names unm fuel (Env.serving aff (some ⟨200, body⟩)) st = some r ∧
      r.store.rows.map StoredRow.columns = rows.map (nameRow.columns aff) ∧
      ∀ env2 : Env, env2.queryFails = false → env2.scanStops = none →
        cache.Names env2 r.store = some (rows.map (fun r => r.Name)) := by
  refine ⟨_, Names_cold unm fuel aff body st rows log hst hd, ?_, ?_⟩
  · simp only
    rw [foldl_insert_rows, hst]; rfl
  · intro env2 hq hs
    simp only [cache.Names, hq, hs]
    rw [foldl_insert_names, hst]; rfl

/-- Order preservation on the payload of two Greek names: the names are stored as sent, the
dates `"-0100"`, `"0100"`, `"0001"` and `"0200"` as the integers -100, 100, 1 and 200. -/
theorem Names_preserves_order_greek :
    ∃ r, client.Names unmarshal 4 (Env.serving (integerAffinity SqlValue.text) (some ⟨200,
        Go.bytes ("[\n\x7b\"name\":\"Ἀφροδίτη\",\"notBefore\":\"-0100\","
          ++ "\"notAfter\":\"0100\"\x7d,\n\x7b\"name\":\"Ͷιχανους\",\"notBefore\":\"0001\","
          ++ "\"notAfter\":\"0200\"\x7d,\n]\n")⟩)) ⟨[], 0⟩ = some r ∧
      r.store = ⟨[⟨1, Go.bytes "Ἀφροδίτη", SqlValue.integer (-100), SqlValue.integer 100⟩,
        ⟨2, Go.bytes "Ͷιχανους", SqlValue.integer 1, SqlValue.integer 200⟩], 2⟩ ∧
      cache.Names (Env.serving (integerAffinity SqlValue.text) none) r.store
        = some [Go.bytes "Ἀφροδίτη", Go.bytes "Ͷιχανους"] := by
  refine ⟨_, Names_cold unmarshal 4 (integerAffinity SqlValue.text) _ ⟨[], 0⟩ _ [] rfl
    decodeBody_greek, ?_, ?_⟩
  · decide
  · decide

/-- C4 fails on the code.  On the body `[{"name":"A"},{]` the record A arrives: the goroutine
sends it, then the decode of the cut object fails with `invalid character ']' looking for
beginning of object key string`, the error is skipped and the same failing decode is repeated
for ever.  Whatever the budget, the channel is never closed, so `Populate` never commits and a
cold `Names` call never returns: the record that arrived is not persisted and no later read
delivers it. -/
theorem Names_hangs_after_first_record (aff : List Nat → SqlValue) (fuel : Nat) :
    decodeBody unmarshal (fuel + 1) payloadCut = ⟨[⟨Go.bytes "A", [], []⟩], false, []⟩ ∧
    client.Names unmarshal (fuel + 1) (Env.serving aff (some ⟨200, payloadCut⟩)) ⟨[], 0⟩
      = none := by
  have hd : decodeBody unmarshal (fuel + 1) payloadCut
      = ⟨[⟨Go.bytes "A", [], []⟩], false, []⟩ := by
    have ht : (NewDecoder payloadCut).Token
        = (⟨Go.bytes "\x7b\"name\":\"A\"\x7d,\x7b]", none, TokenState.tokenArrayStart,
            [TokenState.tokenTopValue]⟩, Except.ok (Token.Delim 0x5B)) := by decide
    unfold decodeBody
    simp only [ht, ne_eq, not_true_eq_false, if_false]
    have hm1 : Decoder.More ⟨Go.bytes "\x7b\"name\":\"A\"\x7d,\x7b]", none,
        TokenState.tokenArrayStart, [TokenState.tokenTopValue]⟩
        = (⟨Go.bytes "\x7b\"name\":\"A\"\x7d,\x7b]", none, TokenState.tokenArrayStart,
            [TokenState.tokenTopValue]⟩, true) := by decide
    have hd1 : Decoder.Decode unmarshal ⟨Go.bytes "\x7b\"name\":\"A\"\x7d,\x7b]", none,
        TokenState.tokenArrayStart, [TokenState.tokenTopValue]⟩
        = (⟨[0x2C, 0x7B, 0x5D], none, TokenState.tokenArrayComma, [TokenState.tokenTopValue]⟩,
            Except.ok ⟨Go.bytes "A", [], []⟩) := by decide
    have hrest : decodeLoop unmarshal fuel ⟨[0x2C, 0x7B, 0x5D], none,
        TokenState.tokenArrayComma, [TokenState.tokenTopValue]⟩ = ⟨[], false, []⟩ := by
      cases fuel with
      | zero => rfl
      | succ n =>
        have hm2 : Decoder.More ⟨[0x2C, 0x7B, 0x5D], none, TokenState.tokenArrayComma,
            [TokenState.tokenTopValue]⟩ = (⟨[0x2C, 0x7B, 0x5D], none,
            TokenState.tokenArrayComma, [TokenState.tokenTopValue]⟩, true) := by decide
        have hr : readValue [0x7B, 0x5D] = ReadResult.error (DecodeError.syntaxError
            ⟨0x5D, "looking for beginning of object key string"⟩) := by decide
        rw [decodeLoop_continue unmarshal n _ _ _ _ hm2
          (Decode_comma_err unmarshal _ _ _ hr) rfl]
        exact decodeLoop_spins unmarshal 0x7B [0x5D] (DecodeError.syntaxError
          ⟨0x5D, "looking for beginning of object key string"⟩) _ _
          (by decide) (by decide) (by decide) rfl n
    rw [decodeLoop_row unmarshal fuel _ _ _ _ hm1 hd1, hrest]
  exact ⟨hd, Names_cold_open unmarshal (fuel + 1) aff payloadCut ⟨[], 0⟩ _ _ rfl hd⟩

/-- C5. For a 200 response whose body is an array of objects with a comma after each of them,
the last included, `downloadNames` returns no error and its goroutine sends the rows of the
objects in order, closes the channel and writes nothing to standard error. -/
theorem downloadNames_trailing_comma (unm : List Nat → Except UnmarshalTypeError nameRow)
    (fuel : Nat) (env : Env) (lead gap tail : List Nat)
    (es : List (List Nat × List Nat × List Nat)) (rs : List nameRow)
    (hlead : lead.all isSpace = true) (hgap : gap.all isSpace = true)
    (hall : List.Forall₂ (IsNameObject unm) es rs) (hfuel : es.length + 2 ≤ fuel)
    (hresp : env.response = some ⟨200, trailingCommaArray lead es gap tail⟩) :
    client.downloadNames unm fuel env = Except.ok ⟨rs, true, []⟩ := by
  obtain ⟨k, rfl⟩ := Nat.exists_eq_add_of_le hfuel
  simp only [client.downloadNames, hresp, ne_eq, not_true_eq_false, if_false, decodeBody,
    trailingCommaArray, Token_bracket lead _ hlead]
  exact congrArg Except.ok (decodeLoop_array unm gap tail hgap es rs hall _ k)

/-- The payload `[{"name":"A","notBefore":"1","notAfter":"2"},]` decodes to exactly one
record. -/
theorem downloadNames_trailing_comma_witness :
    IsNameObject unmarshal ([], objectA, []) rowA ∧
    trailingCommaArray [] [([], objectA, [])] [] [] = payloadA ∧
    client.downloadNames unmarshal 3
        (Env.serving (integerAffinity SqlValue.text) (some ⟨200, payloadA⟩))
      = Except.ok ⟨[rowA], true, []⟩ :=
  ⟨objectA_isNameObject, by decide,
    downloadNames_trailing_comma unmarshal 3
      (Env.serving (integerAffinity SqlValue.text) (some ⟨200, payloadA⟩)) [] [] []
      [([], objectA, [])] [rowA] rfl rfl
      (List.Forall₂.cons objectA_isNameObject List.Forall₂.nil) (by decide) (by decide)⟩

/-- C6. Whenever `Names` returns an error from opening the cache, counting, downloading or
populating, the store holds the records it held before the call; and on an empty store a
response with a status other than 200 makes `Names` return such an error and leaves the store
at count 0, the error being the unexpected status as soon as the database itself works. -/
theorem Names_error_store_unchanged (unm : List Nat → Except UnmarshalTypeError nameRow)
    (fuel : Nat) (env : Env) (st : Store) :
    (∀ r e, client.Names unm fuel env st = some r → r.result = Except.error e →
      Error.beforeQuery e → r.store = st) ∧
    (∀ resp, st.rows = [] → env.response = some resp → resp.StatusCode ≠ 200 →
      ∃ r e, client.Names unm fuel env st = some r ∧ r.result = Except.error e ∧
        Error.beforeQuery e ∧ r.store = st ∧ r.store.rows.length = 0 ∧
        (env.openFails = false → env.schemaFails = false → env.countFails = false →
          e = Error.downloadNames (FetchError.unexpectedStatus resp.StatusCode))) := by
  constructor
  · intro r e h he hb
    refine Names_error_store unm fuel env st r e h he ?_
    rintro rfl
    rcases hb with h | h | h | ⟨_, h⟩ | ⟨_, h⟩ <;> cases h
  · intro resp hst hresp hcode
    have hlen : st.rows.length = 0 := by rw [hst]; rfl
    by_cases c1 : env.openFails = true
    · refine ⟨⟨st, [], Except.error Error.openCache⟩, _, ?_, rfl, Or.inl rfl, rfl, hlen, ?_⟩
      · simp [client.Names, newCache, c1]
      · intro h; rw [h] at c1; cases c1
    by_cases c2 : env.schemaFails = true
    · refine ⟨⟨st, [Event.dbOpen, Event.dbClose], Except.error Error.createSchema⟩, _, ?_, rfl, Or.inr (Or.inl rfl), rfl,
        hlen, ?_⟩
      · simp [client.Names, newCache, c1, c2]
      · intro _ h; rw [h] at c2; cases c2
    by_cases c3 : env.countFails = true
    · refine ⟨⟨st, [Event.dbOpen, Event.countQuery, Event.dbClose],
        Except.error Error.countNames⟩, _, ?_, rfl,
        Or.inr (Or.inr (Or.inl rfl)), rfl, hlen, ?_⟩
      · simp [client.Names, newCache, client.namesBody, c1, c2, c3, cache.Count]
      · intro _ _ h; rw [h] at c3; cases c3
    · refine ⟨⟨st, [Event.dbOpen, Event.countQuery, Event.stderr LogLine.downloading,
        Event.httpGet, Event.dbClose], Except.error (Error.downloadNames
        (FetchError.unexpectedStatus resp.StatusCode))⟩, _, ?_, rfl,
        Or.inr (Or.inr (Or.inr (Or.inl ⟨_, rfl⟩))), rfl, hlen, fun _ _ _ => rfl⟩
      simp [client.Names, newCache, client.namesBody, c1, c2, c3, cache.Count, hst,
        client.downloadNames, hresp, hcode]

/-- A 500 response on an empty store: `Names` returns the unexpected-status error and the store
stays empty; and a failing insert in the middle of populating leaves the store empty as well. -/
theorem Names_error_store_unchanged_witness :
    (∃ r, client.Names unmarshal 3
        (Env.serving (integerAffinity SqlValue.text) (some ⟨500, payloadA⟩)) ⟨[], 0⟩ = some r ∧
      r.result = Except.error (Error.downloadNames (FetchError.unexpectedStatus 500)) ∧
      r.store = ⟨[], 0⟩) ∧
    (∃ r, client.Names unmarshal 3
        { Env.serving (integerAffinity SqlValue.text) (some ⟨200, payloadA⟩) with
          insertFails := some 0 } ⟨[], 0⟩ = some r ∧
      r.result = Except.error (Error.populate (PopulateError.insert rowA)) ∧
      r.store = ⟨[], 0⟩) := by
  constructor
  · obtain ⟨r, e, h1, h2, _, h4, _, h6⟩ :=
      (Names_error_store_unchanged unmarshal 3
        (Env.serving (integerAffinity SqlValue.text) (some ⟨500, payloadA⟩)) ⟨[], 0⟩).2
        ⟨500, payloadA⟩ rfl rfl (by decide)
    exact ⟨r, h1, by rw [h2, h6 rfl rfl rfl], h4⟩
  · refine ⟨⟨⟨[], 0⟩, _, Except.error (Error.populate (PopulateError.insert rowA))⟩, rfl, rfl, ?_⟩
    exact (Names_error_store_unchanged unmarshal 3
      { Env.serving (integerAffinity SqlValue.text) (some ⟨200, payloadA⟩) with
        insertFails := some 0 } ⟨[], 0⟩).1 _ _ rfl rfl
      (Or.inr (Or.inr (Or.inr (Or.inr ⟨_, rfl⟩))))

/-- What the code does on every 200 response whose first JSON token is not the opening bracket:
`downloadNames` returns no error, its goroutine writes one line to standard error and closes the
channel without sending a row, and a cold `Names` call in a healthy environment commits an empty
transaction and returns a channel that delivers no name, with a nil error. -/
theorem Names_first_token_not_bracket (unm : List Nat → Except UnmarshalTypeError nameRow)
    (fuel : Nat) (aff : List Nat → SqlValue) (body : List Nat) (st : Store)
    (hst : st.rows = [])
    (htok : ((NewDecoder body).Token).2 ≠ Except.ok (Token.Delim 0x5B)) :
    (∃ l, client.downloadNames unm fuel (Env.serving aff (some ⟨200, body⟩))
      = Except.ok ⟨[], true, [l]⟩) ∧
    client.Names unm fuel (Env.serving aff (some ⟨200, body⟩)) st
      = some ⟨st, coldTrace [], Except.ok []⟩ := by
  obtain ⟨l, hl⟩ := decodeBody_bad_token unm fuel body htok
  constructor
  · exact ⟨l, by simp [client.downloadNames, Env.serving, hl]⟩
  · exact Names_cold unm fuel aff body st [] [l] hst hl

/-- C7 fails on the code.  On a cold store and a 200 response with the body `{}`, whose first
token is the opening brace and not the opening bracket, `downloadNames` returns a channel and a
nil error: the goroutine only writes `json error: unexpected token` to standard error and closes
the channel.  The cold `Names` call then commits an empty population, prints ` done.`, leaves
the store empty and returns a channel that delivers no name, with a nil error, where the claim
and the documentation of `Names` promise an error. -/
theorem Names_object_payload_no_error (aff : List Nat → SqlValue) (fuel : Nat) :
    ((NewDecoder (Go.bytes "\x7b\x7d")).Token).2 = Except.ok (Token.Delim 0x7B) ∧
    client.downloadNames unmarshal fuel (Env.serving aff (some ⟨200, Go.bytes "\x7b\x7d"⟩))
      = Except.ok ⟨[], true, [LogLine.unexpectedToken (Token.Delim 0x7B)]⟩ ∧
    client.Names unmarshal fuel (Env.serving aff (some ⟨200, Go.bytes "\x7b\x7d"⟩)) ⟨[], 0⟩
      = some ⟨⟨[], 0⟩, coldTrace [], Except.ok []⟩ := by
  have hd : decodeBody unmarshal fuel (Go.bytes "\x7b\x7d")
      = ⟨[], true, [LogLine.unexpectedToken (Token.Delim 0x7B)]⟩ := rfl
  refine ⟨by decide, ?_, ?_⟩
  · simp [client.downloadNames, Env.serving, hd]
  · exact Names_cold unmarshal fuel aff _ ⟨[], 0⟩ [] _ rfl hd

/-- C8 (amended). In every successful call of `Names` the store handle is opened first and
closed last, right after the scan query was issued and before the call returns: the caller
receives every name, and the end of the channel, after the handle was closed. -/
theorem Names_closes_on_return (unm : List Nat → Except UnmarshalTypeError nameRow)
    (fuel : Nat) (env : Env) (st : Store) (r : NamesResult) (names : List (List Nat))
    (h : client.Names unm fuel env st = some r) (hok : r.result = Except.ok names) :
    ∃ pre, r.trace = Event.dbOpen :: pre ++ [Event.namesQuery, Event.dbClose] ∧
      Event.dbClose ∉ pre ∧ Event.dbOpen ∉ pre ∧
      session r = Event.dbOpen :: pre ++ [Event.namesQuery, Event.dbClose]
        ++ names.map Event.receive ++ [Event.receiveClosed] := by
  unfold client.Names at h
  rcases hn : newCache env with ⟨tr, _ | e0⟩
  · have htr := newCache_ok env tr hn
    subst htr
    rcases hb : client.namesBody unm fuel env st with _ | rb
    · simp only [hn, hb, reduceCtorEq] at h
    · simp only [hn, hb, Option.some.injEq] at h
      subst h
      simp only at hok
      have key : ∀ (st1 : Store) (pre : List Event), rb = client.finish env st1 pre →
          Event.dbClose ∉ pre → Event.dbOpen ∉ pre →
          ∃ pre, [Event.dbOpen] ++ rb.trace ++ [Event.dbClose]
              = Event.dbOpen :: pre ++ [Event.namesQuery, Event.dbClose] ∧
            Event.dbClose ∉ pre ∧ Event.dbOpen ∉ pre ∧
            session ⟨rb.store, [Event.dbOpen] ++ rb.trace ++ [Event.dbClose], rb.result⟩
              = Event.dbOpen :: pre ++ [Event.namesQuery, Event.dbClose]
                ++ names.map Event.receive ++ [Event.receiveClosed] := by
        intro st1 pre hr h1 h2
        have ht : rb.trace = pre ++ [Event.namesQuery] := by
          rw [hr]; exact (finish_store env st1 _).2.1
        refine ⟨pre, by simp [ht], h1, h2, ?_⟩
        unfold session
        simp only [hok, ht]
        simp
      unfold client.namesBody at hb
      split at hb
      · injection hb with hb; subst hb; cases hok
      · split_ifs at hb with c3
        · split at hb
          · injection hb with hb; subst hb; cases hok
          · split at hb
            · cases hb
            · injection hb with hb; subst hb; cases hok
            · rename_i hp
              injection hb with hb
              obtain ⟨n1, n2⟩ := Populate_ok_events _ _ _ _ _ hp
              refine key _ _ hb.symm ?_ ?_
              · simp [n1]
              · simp [n2]
        · injection hb with hb
          exact key _ _ hb.symm (by simp) (by simp)
  · simp only [hn, Option.some.injEq] at h
    subst h
    cases hok

/-- A warm call on a store holding the single name "A": the handle is closed, and then the name
is received. -/
theorem Names_closes_on_return_witness :
    ∃ r, client.Names unmarshal 0 (Env.serving (integerAffinity SqlValue.text) none)
        ⟨[⟨1, Go.bytes "A", SqlValue.integer 1, SqlValue.integer 2⟩], 1⟩ = some r ∧
      ∃ pre, r.trace = Event.dbOpen :: pre ++ [Event.namesQuery, Event.dbClose] ∧
        Event.dbClose ∉ pre ∧ Event.dbOpen ∉ pre ∧
        session r = Event.dbOpen :: pre ++ [Event.namesQuery, Event.dbClose]
          ++ [Go.bytes "A"].map Event.receive ++ [Event.receiveClosed] :=
  ⟨_, rfl, Names_closes_on_return unmarshal 0 (Env.serving (integerAffinity SqlValue.text) none)
    ⟨[⟨1, Go.bytes "A", SqlValue.integer 1, SqlValue.integer 2⟩], 1⟩ _ [Go.bytes "A"] rfl rfl⟩

/-- C8 as stated fails on a store holding one name: `Close` comes before the caller receives
the name, while the sequence is neither exhausted nor cancelled. -/
theorem Names_closed_while_streaming :
    ∃ r, client.Names unmarshal 0 (Env.serving (integerAffinity SqlValue.text) none)
        ⟨[⟨1, Go.bytes "A", SqlValue.integer 1, SqlValue.integer 2⟩], 1⟩ = some r ∧
      session r = [Event.dbOpen, Event.countQuery, Event.namesQuery, Event.dbClose,
        Event.receive (Go.bytes "A"), Event.receiveClosed] :=
  ⟨⟨_, _, Except.ok [Go.bytes "A"]⟩, rfl, by decide⟩

/-- C9 fails on the code.  On the body `[{]` the first `Decode` fails with
`invalid character ']' looking for beginning of object key string`; the error is skipped, `More`
still sees the brace, and every later `Decode` returns the same error: whatever the budget, the
goroutine sends no row and never closes the channel, and a cold `Names` call never returns. -/
theorem downloadNames_never_closes (unm : List Nat → Except UnmarshalTypeError nameRow)
    (fuel : Nat) (aff : List Nat → SqlValue) :
    decodeBody unm fuel (Go.bytes "[\x7b]") = ⟨[], false, []⟩ ∧
    client.Names unm fuel (Env.serving aff (some ⟨200, Go.bytes "[\x7b]"⟩)) ⟨[], 0⟩ = none := by
  have hd : decodeBody unm fuel (Go.bytes "[\x7b]") = ⟨[], false, []⟩ := by
    have ht : (NewDecoder (Go.bytes "[\x7b]")).Token
        = (⟨[0x7B, 0x5D], none, TokenState.tokenArrayStart, [TokenState.tokenTopValue]⟩,
            Except.ok (Token.Delim 0x5B)) := by decide
    unfold decodeBody
    simp only [ht, ne_eq, not_true_eq_false, if_false]
    cases fuel with
    | zero => rfl
    | succ n =>
      have hm : Decoder.More ⟨[0x7B, 0x5D], none, TokenState.tokenArrayStart,
          [TokenState.tokenTopValue]⟩ = (⟨[0x7B, 0x5D], none, TokenState.tokenArrayStart,
          [TokenState.tokenTopValue]⟩, true) := rfl
      have hr : readValue [0x7B, 0x5D] = ReadResult.error (DecodeError.syntaxError
          ⟨0x5D, "looking for beginning of object key string"⟩) := by decide
      rw [decodeLoop_continue unm n _ _ _ _ hm (Decode_start_err unm _ _ _ hr) rfl]
      exact decodeLoop_spins unm 0x7B [0x5D] (DecodeError.syntaxError
        ⟨0x5D, "looking for beginning of object key string"⟩) _ _
        (by decide) (by decide) (by decide) rfl n
  refine ⟨hd, ?_⟩
  simp [client.Names, newCache, client.namesBody, Env.serving, cache.Count,
    client.downloadNames, hd, cache.Populate, cache.populateLoop]

end lgpn
